import Mathlib

/-!
# Verification of the Garmin health-dashboard ingestion and analytics core

A shallow embedding, in Lean 4, of the ingestion pipeline
(`src/services/dataParser/garminParser.ts`) and the correlation engine
(`src/services/analytics/correlationAnalysis.ts`) of the
garmin-health-dashboard repository, together with theorems settling the
specification claims about them.

Modelling conventions:
* A parsed JSON document is a `Json` tree; JavaScript `undefined` is
  represented by `Option Json` being `none` at property-access results.
* JavaScript expressions that can throw (property access on `null`,
  calling a missing method, `Date.prototype.toISOString` on an invalid
  date) are modelled in the `Except Unit` monad.
* `new Date(v).getTime()` is modelled by an arbitrary parse function
  `dparse : Json → Option ℤ` (with `none` playing the role of `NaN`);
  `new Date(undefined)` is always `NaN`, which the embedding encodes by
  construction.  Theorems quantify over `dparse`; concrete evaluations
  use the sample instance `dparseIso` below.
* JavaScript numbers appearing inside JSON documents are modelled as `ℚ`,
  and the numeric series fed to the correlation engine as `ℝ`.
-/

/-! ## JSON values and JavaScript primitives -/

/-- A parsed JSON document (result of a successful `JSON.parse`). -/
inductive Json where
  | null
  | bool (b : Bool)
  | num (q : ℚ)
  | str (s : String)
  | arr (items : List Json)
  | obj (fields : List (String × Json))

/-- JavaScript truthiness of a parsed JSON value.  (`NaN` cannot result
from `JSON.parse`, so a number is truthy iff it is nonzero.) -/
def truthy : Json → Bool
  | .null => false
  | .bool b => b
  | .num q => decide (q ≠ 0)
  | .str s => decide (s ≠ "")
  | .arr _ => true
  | .obj _ => true

/-- Truthiness of a possibly-`undefined` value (`undefined` is falsy). -/
def truthyO : Option Json → Bool
  | none => false
  | some v => truthy v

/-- `typeof v === 'object'` (true for objects, arrays and `null`). -/
def isObjectType : Json → Bool
  | .null => true
  | .arr _ => true
  | .obj _ => true
  | _ => false

/-- `v && typeof v === 'object'`: the element filter used throughout the
extractors (keeps non-null objects and arrays). -/
def objShaped (v : Json) : Bool := truthy v && isObjectType v

/-- Property access `v.k` on a defined receiver.  Throws (TypeError) when
the receiver is `null`; yields `undefined` on primitives and on arrays
(none of the accessed names is an array index or `length`); looks the key
up on objects. -/
def jsGet : Json → String → Except Unit (Option Json)
  | .null, _ => .error ()
  | .obj fields, k => .ok (fields.lookup k)
  | _, _ => .ok none

/-- Property access on a receiver known not to be `null` (used where the
source has already guarded the receiver); `undefined` on non-objects. -/
def getF : Json → String → Option Json
  | .obj fields, k => fields.lookup k
  | _, _ => none

/-! ## Strings: kernel-computable stand-ins for the JavaScript string
methods used by the classifier (`toLowerCase`, `includes`, `endsWith`). -/

/-- `p` is a leading block of `l`. -/
def charsHead : List Char → List Char → Bool
  | [], _ => true
  | _ :: _, [] => false
  | a :: p, b :: l => a == b && charsHead p l

/-- `p` occurs contiguously inside `l`. -/
def charsHas (p : List Char) : List Char → Bool
  | [] => charsHead p []
  | b :: l => charsHead p (b :: l) || charsHas p l

/-- `String.prototype.includes` (substring containment). -/
def strIncludes (s pat : String) : Bool := charsHas pat.data s.data

/-- `String.prototype.endsWith`. -/
def strEndsWith (s pat : String) : Bool :=
  charsHead pat.data.reverse s.data.reverse

/-- `String.prototype.toLowerCase` (ASCII range, which is all the
classifier's patterns use). -/
def asciiLower (s : String) : String := String.mk (s.data.map Char.toLower)

/-! ## Record extractors (second revision of `garminParser.ts`)

Normalized records produced by the mapping extractors are association
lists from field name to a possibly-`undefined` value, mirroring the
object literals the source builds. -/

/-- A normalized record: an object literal whose property values may be
`undefined`. -/
def JRec := List (String × Option Json)

/-- Read a record field; an `undefined` stored value reads back as
`undefined`. -/
def recGet (r : JRec) (k : String) : Option Json := (List.lookup k r).join

/-- Reinterpret a parsed JSON object's fields as a normalized record
(every value is defined). -/
def toRec : Json → JRec
  | .obj fields => fields.map (fun p => (p.1, some p.2))
  | _ => []

/-- Object-spread-with-override `{...l, k: v}`: replace the value at `k`,
or append the property if absent. -/
def setField (l : JRec) (k : String) (v : Option Json) : JRec :=
  match l with
  | [] => [(k, v)]
  | (k', v') :: t => if k' = k then (k, v) :: t else (k', v') :: setField t k v

/-- Probe an object's properties in order for the first one holding an
array (`parseSleepData` / `parseActivities` wrapper handling). -/
def probeWrapper (fields : List (String × Json)) : List String → Option (List Json)
  | [] => none
  | p :: rest =>
    match fields.lookup p with
    | some (.arr l) => some l
    | _ => probeWrapper fields rest

/-- `parseSleepData` (garminParser.ts, revision 2, lines 321-336): a bare
array is filtered to its object-shaped items; an object is probed for a
wrapper property holding an array; anything else yields `[]`.  No
operation in the body can throw. -/
def parseSleepData (data : Json) : Except Unit (List Json) :=
  match data with
  | .arr items => .ok (items.filter objShaped)
  | .obj fields =>
    match probeWrapper fields ["sleepData", "data", "records", "items"] with
    | some l => .ok (l.filter objShaped)
    | none => .ok []
  | _ => .ok []

/-- `aggregatorList.find(agg => agg.type === 'TOTAL')`: first element whose
`type` property is the string `TOTAL`.  Reading `.type` throws when the
element is `null`. -/
def findTotalAgg : List Json → Except Unit (Option Json)
  | [] => .ok none
  | a :: rest =>
    match a with
    | .null => .error ()
    | .obj fields =>
      match fields.lookup "type" with
      | some (.str s) =>
        if s = "TOTAL" then .ok (some (.obj fields)) else findTotalAgg rest
      | _ => findTotalAgg rest
    | _ => findTotalAgg rest

/-- `data.allDayStress?.aggregatorList?.find(agg => agg.type === 'TOTAL')`.
Optional chaining short-circuits on `null`/`undefined`; calling `.find` on
a defined non-array value throws (it is not a function). -/
def stressTotalAgg (fields : List (String × Json)) : Except Unit (Option Json) :=
  match fields.lookup "allDayStress" with
  | none => .ok none
  | some .null => .ok none
  | some ads =>
    match (match ads with | .obj afs => afs.lookup "aggregatorList" | _ => none) with
    | none => .ok none
    | some .null => .ok none
    | some (.arr items) => findTotalAgg items
    | some _ => .error ()

/-- `agg?.field` on the (possibly absent) whole-day stress aggregate. -/
def aggGet (agg : Option Json) (k : String) : Option Json :=
  match agg with
  | some (.obj fields) => fields.lookup k
  | _ => none

/-- The object literal built by `parseWellnessData` (revision 2,
lines 341-381), given the source object's fields and the evaluated
whole-day stress aggregate. -/
def mkWellnessRec (fs : List (String × Json)) (agg : Option Json) : JRec :=
  [("userProfilePK", fs.lookup "userProfilePK"),
   ("calendarDate", fs.lookup "calendarDate"),
   ("totalSteps", fs.lookup "totalSteps"),
   ("totalKilocalories", fs.lookup "totalKilocalories"),
   ("bmrKilocalories", fs.lookup "bmrKilocalories"),
   ("wellnessKilocalories", fs.lookup "wellnessKilocalories"),
   ("activeKilocalories", fs.lookup "activeKilocalories"),
   ("floorsAscended", fs.lookup "floorsAscended"),
   ("floorsDescended", fs.lookup "floorsDescended"),
   ("floorsAscendedInMeters", fs.lookup "floorsAscendedInMeters"),
   ("floorsDescendedInMeters", fs.lookup "floorsDescendedInMeters"),
   ("minHeartRate", fs.lookup "minHeartRate"),
   ("maxHeartRate", fs.lookup "maxHeartRate"),
   ("restingHeartRate", fs.lookup "restingHeartRate"),
   ("lastSevenDaysAvgRestingHeartRate", fs.lookup "lastSevenDaysAvgRestingHeartRate"),
   ("source", fs.lookup "source"),
   ("averageStressLevel", aggGet agg "averageStressLevel"),
   ("maxStressLevel", aggGet agg "maxStressLevel"),
   ("stressDuration", aggGet agg "stressDuration"),
   ("restStressDuration", aggGet agg "restDuration"),
   ("activityStressDuration", aggGet agg "activityDuration"),
   ("uncategorizedStressDuration", aggGet agg "uncategorizedDuration"),
   ("totalStressDuration", aggGet agg "totalDuration"),
   ("lowStressDuration", aggGet agg "lowDuration"),
   ("mediumStressDuration", aggGet agg "mediumDuration"),
   ("highStressDuration", aggGet agg "highDuration"),
   ("stressPercentage", fs.lookup "stressPercentage"),
   ("restStressPercentage", fs.lookup "restStressPercentage"),
   ("activityStressPercentage", fs.lookup "activityStressPercentage"),
   ("uncategorizedStressPercentage", fs.lookup "uncategorizedStressPercentage"),
   ("lowStressPercentage", fs.lookup "lowStressPercentage"),
   ("mediumStressPercentage", fs.lookup "mediumStressPercentage"),
   ("highStressPercentage", fs.lookup "highStressPercentage"),
   ("stressQualifier", fs.lookup "stressQualifier"),
   ("measurableAwakeDuration", fs.lookup "measurableAwakeDuration"),
   ("measurableAsleepDuration", fs.lookup "measurableAsleepDuration"),
   ("lastSyncTimestampGMT", fs.lookup "lastSyncTimestampGMT"),
   ("allDayStress", fs.lookup "allDayStress"),
   ("bodyBattery", fs.lookup "bodyBattery")]

/-- `parseWellnessData` (revision 2, lines 338-384): a non-null object
with a truthy `calendarDate` is mapped to the normalized wellness record;
anything else yields `null`.  Evaluating the stress-aggregate chain can
throw. -/
def parseWellnessData (data : Json) : Except Unit (Option JRec) :=
  match data with
  | .obj fields =>
    if truthyO (fields.lookup "calendarDate") then
      match stressTotalAgg fields with
      | .error u => .error u
      | .ok agg => .ok (some (mkWellnessRec fields agg))
    else .ok none
  | _ => .ok none

/-- The date-parse function `dparse` abstracts `new Date(v).getTime()` on
a defined argument; `none` stands for `NaN` (an invalid date).
`new Date(undefined)` is always invalid. -/
def dateKey (dparse : Json → Option ℤ) : Option Json → Option ℤ
  | none => none
  | some v => dparse v

/-- Rendering of `Date.prototype.toISOString`'s result.  Only the fact
that it is a nonempty string is relied upon downstream. -/
def isoOfTime (t : ℤ) : String := "D" ++ toString t

/-- `new Date(v).toISOString()`: throws a RangeError when the date is
invalid, otherwise yields the ISO string. -/
def jsNewDateISO (dparse : Json → Option ℤ) (v : Option Json) : Except Unit String :=
  match dateKey dparse v with
  | none => .error ()
  | some t => .ok (isoOfTime t)

/-- The item filter of `parseHydrationData`:
`item && typeof item === 'object' && item.valueInML !== undefined`. -/
def hydrationKeep (item : Json) : Bool :=
  objShaped item && (getF item "valueInML").isSome

/-- `array.map(cb)` with a callback that can throw: stops at the first
throw, discarding the partial output (the caller sees the exception). -/
def mapME (f : α → Except Unit β) : List α → Except Unit (List β)
  | [] => .ok []
  | x :: t =>
    match f x with
    | .error u => .error u
    | .ok y =>
      match mapME f t with
      | .error u => .error u
      | .ok ys => .ok (y :: ys)

/-- The per-item mapping of `parseHydrationData`: synthesizes
`timestampGMT` from `calendarDate` when absent, which throws when that
date is unparseable. -/
def mkHydrationRec (dparse : Json → Option ℤ) (item : Json) : Except Unit JRec :=
  match item with
  | .obj fields =>
    if truthyO (fields.lookup "timestampGMT") then
      .ok [("calendarDate", fields.lookup "calendarDate"),
           ("valueInML", fields.lookup "valueInML"),
           ("timestampGMT", fields.lookup "timestampGMT")]
    else
      match jsNewDateISO dparse (fields.lookup "calendarDate") with
      | .error u => .error u
      | .ok s =>
        .ok [("calendarDate", fields.lookup "calendarDate"),
             ("valueInML", fields.lookup "valueInML"),
             ("timestampGMT", some (.str s))]
  | _ => .ok []

/-- `parseHydrationData` (revision 2, lines 386-397): filter a bare array
to items with a defined `valueInML`, then map each to the normalized
record (the mapping can throw); non-array payloads yield `[]`. -/
def parseHydrationData (dparse : Json → Option ℤ) (data : Json) :
    Except Unit (List JRec) :=
  match data with
  | .arr items => mapME (mkHydrationRec dparse) (items.filter hydrationKeep)
  | _ => .ok []

/-- `a || b` on possibly-`undefined` values. -/
def jsOr (a b : Option Json) : Option Json := if truthyO a then a else b

/-- The flat-activity filter:
`item && typeof item === 'object' && item.activityType && item.startTimeGMT`. -/
def activityKeep (item : Json) : Bool :=
  objShaped item && truthyO (getF item "activityType") &&
    truthyO (getF item "startTimeGMT")

/-- The object literal built for one activity of a
`summarizedActivitiesExport` wrapper (revision 2, lines 407-445).  Reading
a property of a `null` element and `toISOString` on an invalid date
throw. -/
def mkActivityRec (dparse : Json → Option ℤ) (a : Json) : Except Unit JRec :=
  match jsGet a "activityType" with
  | .error u => .error u
  | .ok aType =>
  match jsGet a "sportType" with
  | .error u => .error u
  | .ok sport =>
  match jsGet a "startTimeGmt" with
  | .error u => .error u
  | .ok stg =>
  match jsGet a "beginTimestamp" with
  | .error u => .error u
  | .ok beg =>
  match jsNewDateISO dparse (jsOr stg beg) with
  | .error u => .error u
  | .ok stGMT =>
  match jsGet a "startTimeLocal" with
  | .error u => .error u
  | .ok stl =>
  match jsNewDateISO dparse (jsOr stl beg) with
  | .error u => .error u
  | .ok stLocal =>
  match jsGet a "name" with
  | .error u => .error u
  | .ok nm =>
  .ok [("activityType", jsOr aType sport),
       ("startTimeGMT", some (.str stGMT)),
       ("startTimeLocal", some (.str stLocal)),
       ("activityName", jsOr nm aType),
       ("distance", getF a "distance"),
       ("duration", getF a "duration"),
       ("elapsedDuration", getF a "elapsedDuration"),
       ("movingDuration", getF a "movingDuration"),
       ("elevationGain", getF a "elevationGain"),
       ("elevationLoss", getF a "elevationLoss"),
       ("averageSpeed", getF a "avgSpeed"),
       ("maxSpeed", getF a "maxSpeed"),
       ("calories", getF a "calories"),
       ("bmrCalories", getF a "bmrCalories"),
       ("averageHR", getF a "avgHr"),
       ("maxHR", getF a "maxHr"),
       ("averageRunCadence", getF a "avgRunCadence"),
       ("maxRunCadence", getF a "maxRunCadence"),
       ("averageBikeCadence", getF a "avgBikeCadence"),
       ("maxBikeCadence", getF a "maxBikeCadence"),
       ("strokes", getF a "strokes"),
       ("avgStrokes", getF a "avgStrokes"),
       ("poolLength", getF a "poolLength"),
       ("unitOfPoolLength", getF a "unitOfPoolLength"),
       ("locationName", getF a "locationName"),
       ("avgPower", getF a "avgPower"),
       ("maxPower", getF a "maxPower"),
       ("minPower", getF a "minPower"),
       ("normPower", getF a "normPower"),
       ("trainingStressScore", getF a "trainingStressScore"),
       ("intensityFactor", getF a "intensityFactor"),
       ("avgVerticalSpeed", getF a "avgVerticalSpeed"),
       ("lapCount", getF a "lapCount"),
       ("endLatitude", getF a "endLatitude"),
       ("endLongitude", getF a "endLongitude"),
       ("startLatitude", getF a "startLatitude"),
       ("startLongitude", getF a "startLongitude")]

/-- One wrapper item of the `summarizedActivitiesExport` shape: its nested
list (when present and an array) is mapped through `mkActivityRec`. -/
def activitiesOfWrapper (dparse : Json → Option ℤ) (item : Json) :
    Except Unit (List JRec) :=
  match jsGet item "summarizedActivitiesExport" with
  | .error u => .error u
  | .ok (some (.arr acts)) => mapME (mkActivityRec dparse) acts
  | .ok _ => .ok []

/-- `parseActivities` (revision 2, lines 399-471): the
`summarizedActivitiesExport` wrapper shape (detected on the first array
element, which throws when that element is `null`), a flat array of
activities, or an object probed for a wrapper property. -/
def parseActivities (dparse : Json → Option ℤ) (data : Json) :
    Except Unit (List JRec) :=
  match data with
  | .arr items =>
    match items with
    | [] => .ok ((items.filter activityKeep).map toRec)
    | first :: _ =>
      match jsGet first "summarizedActivitiesExport" with
      | .error u => .error u
      | .ok sae =>
        if truthyO sae then
          match mapME (activitiesOfWrapper dparse) items with
          | .error u => .error u
          | .ok parts => .ok parts.flatten
        else
          .ok ((items.filter activityKeep).map toRec)
  | .obj fields =>
    match probeWrapper fields ["summarizedActivities", "activities", "data", "records"] with
    | some l => .ok ((l.filter activityKeep).map toRec)
    | none => .ok []
  | _ => .ok []

/-- `parseMetricsData` (revision 2, lines 473-489): an object with a
truthy `calendarDate` or `metricsDate` is spread into a record whose
`calendarDate` is the first truthy of the two; an array's first element is
taken when it has a truthy `calendarDate` (reading it throws when the
element is `null`). -/
def parseMetricsData (data : Json) : Except Unit (Option JRec) :=
  match data with
  | .obj fields =>
    if truthyO (fields.lookup "calendarDate") || truthyO (fields.lookup "metricsDate") then
      .ok (some (setField (toRec (.obj fields)) "calendarDate"
        (jsOr (fields.lookup "calendarDate") (fields.lookup "metricsDate"))))
    else .ok none
  | .arr items =>
    match items with
    | [] => .ok none
    | first :: _ =>
      match jsGet first "calendarDate" with
      | .error u => .error u
      | .ok c => if truthyO c then .ok (some (toRec first)) else .ok none
  | _ => .ok none

/-! ## File classification and the export aggregator (revision 2) -/

/-- The semantic category the first-match-wins filename chain assigns
(revision 2, lines 227-282). -/
inductive FileCategory where
  | sleep
  | wellness
  | hydration
  | activity
  | metrics
  | unknownJson
  | other
deriving DecidableEq

/-- The classification chain of `parseGarminData` (revision 2): each test
is tried in order, first match wins. -/
def classify (filename : String) : FileCategory :=
  if strIncludes (asciiLower filename) "sleep" && strEndsWith filename ".json" then .sleep
  else if strIncludes filename "UDSFile_" then .wellness
  else if strIncludes (asciiLower filename) "hydration" then .hydration
  else if strIncludes (asciiLower filename) "summarizedactivities" ||
          strIncludes filename "_summarizedActivities" then .activity
  else if strIncludes filename "MetricsMaxMetData_" then .metrics
  else if strEndsWith filename ".json" then .unknownJson
  else .other

/-- One archive entry: a name, a directory flag, and the result of
decoding-then-`JSON.parse`ing its content (`none` when the content is not
JSON-parseable). -/
structure ZEntry where
  name : String
  dir : Bool
  data : Option Json

/-- The export result: the five normalized collections. -/
structure GarminDataExport where
  sleepData : List Json
  wellnessData : List JRec
  hydrationData : List JRec
  activities : List JRec
  metricsData : List JRec

/-- The UDS-file branch (revision 2, lines 238-246): iterate the array,
keep each non-null wellness record; a throw inside `parseWellnessData` is
caught at the entry level, so the records already pushed remain and the
rest of the array is abandoned. -/
def udsFold : List Json → List JRec
  | [] => []
  | r :: rest =>
    match parseWellnessData r with
    | .error _ => []
    | .ok none => udsFold rest
    | .ok (some w) => w :: udsFold rest

/-- What an extractor contributes when its entry throws: the entry-level
`catch` discards the whole result. -/
def okList : Except Unit (List α) → List α
  | .ok l => l
  | .error _ => []

/-- The per-entry contribution to each collection, as dispatched by the
classification chain on a JSON-parseable entry. -/
def extractEntry (dparse : Json → Option ℤ) (name : String) (d : Json) :
    GarminDataExport :=
  match classify name with
  | .sleep => ⟨okList (parseSleepData d), [], [], [], []⟩
  | .wellness =>
    ⟨[], (match d with | .arr recs => udsFold recs | _ => []), [], [], []⟩
  | .hydration => ⟨[], [], okList (parseHydrationData dparse d), [], []⟩
  | .activity => ⟨[], [], [], okList (parseActivities dparse d), []⟩
  | .metrics =>
    ⟨[], [], [], [],
     if truthy d && isObjectType d then
       match parseMetricsData d with
       | .ok (some m) => [m]
       | _ => []
     else []⟩
  | .unknownJson => ⟨[], [], [], [], []⟩
  | .other => ⟨[], [], [], [], []⟩

/-- Append one entry's contribution to the accumulating result. -/
def appendExport (r c : GarminDataExport) : GarminDataExport :=
  ⟨r.sleepData ++ c.sleepData, r.wellnessData ++ c.wellnessData,
   r.hydrationData ++ c.hydrationData, r.activities ++ c.activities,
   r.metricsData ++ c.metricsData⟩

/-- The aggregator's loop state: the accumulating result, the processed
counter, and the sequence of values passed to the progress callback. -/
structure ParseState where
  result : GarminDataExport
  processedFiles : ℕ
  progress : List ℚ

/-- One iteration of the `parseGarminData` loop (revision 2, lines
208-291): directory entries and non-JSON-parseable entries are skipped by
`continue` before the counter increment, so they update nothing; a
JSON-parseable entry contributes its extraction (entry-level throws
caught), is counted, and triggers the progress callback with
`processedFiles / files.length`. -/
def processEntry (dparse : Json → Option ℤ) (total : ℕ) (st : ParseState)
    (e : ZEntry) : ParseState :=
  if e.dir then st
  else
    match e.data with
    | none => st
    | some d =>
      { result := appendExport st.result (extractEntry dparse e.name d),
        processedFiles := st.processedFiles + 1,
        progress := st.progress ++ [((st.processedFiles + 1 : ℕ) : ℚ) / (total : ℚ)] }

/-! ### The final per-collection sort

`Array.prototype.sort` with the comparator
`(a, b) => new Date(a.key).getTime() - new Date(b.key).getTime()` is a
stable comparison sort; a `NaN` comparator value (an unparseable date on
either side) is treated as "equal".  The embedding uses insertion sort
with the corresponding boolean relation. -/

/-- "Not strictly greater" under the comparator: a pair involving an
unparseable date compares as "equal" (the comparator returns `NaN`). -/
def nanLe : Option ℤ → Option ℤ → Bool
  | some p, some q => decide (p ≤ q)
  | _, _ => true

/-- The ordering the date comparator induces on records. -/
def jsLe (k : α → Option ℤ) (a b : α) : Prop := nanLe (k a) (k b) = true

instance (k : α → Option ℤ) : DecidableRel (jsLe k) := fun _ _ => by
  unfold jsLe; infer_instance

/-- Sort key of a sleep record: `new Date(a.sleepStartTimestampGMT)`. -/
def sleepKey (dparse : Json → Option ℤ) (r : Json) : Option ℤ :=
  dateKey dparse (getF r "sleepStartTimestampGMT")

/-- Sort key of a wellness / hydration / metrics record:
`new Date(a.calendarDate)`. -/
def calendarKey (dparse : Json → Option ℤ) (r : JRec) : Option ℤ :=
  dateKey dparse (recGet r "calendarDate")

/-- Sort key of an activity record: revision 2 reads `a.startTimeGmt`
(lowercase `mt`), a property the stored records do not carry under that
spelling. -/
def activityKey (dparse : Json → Option ℤ) (r : JRec) : Option ℤ :=
  dateKey dparse (recGet r "startTimeGmt")

/-- The five sorts applied after the loop (revision 2, lines 301-316). -/
def sortResult (dparse : Json → Option ℤ) (r : GarminDataExport) :
    GarminDataExport :=
  ⟨r.sleepData.insertionSort (jsLe (sleepKey dparse)),
   r.wellnessData.insertionSort (jsLe (calendarKey dparse)),
   r.hydrationData.insertionSort (jsLe (calendarKey dparse)),
   r.activities.insertionSort (jsLe (activityKey dparse)),
   r.metricsData.insertionSort (jsLe (calendarKey dparse))⟩

/-- `parseGarminData` (revision 2): fold the loop over every entry (the
progress denominator counts every entry, directories included), then sort
the five collections. -/
def parseGarminData (dparse : Json → Option ℤ) (entries : List ZEntry) :
    ParseState :=
  let st := entries.foldl (processEntry dparse entries.length)
    ⟨⟨[], [], [], [], []⟩, 0, []⟩
  { st with result := sortResult dparse st.result }

/-! ### A concrete date-parse instance for evaluations

`new Date` on an ISO `YYYY-MM-DD` string yields a valid date whose
timestamps are ordered like the digit strings; on a number it yields that
epoch offset.  `dparseIso` realises exactly that fragment (amply enough
for the concrete archives evaluated below) and reports `NaN` elsewhere. -/

/-- Digits of a char list read as a base-10 number, `none` on a non-digit
or on emptiness. -/
def digitsToNat : List Char → Option ℕ
  | [] => none
  | [c] => if c.isDigit then some (c.toNat - 48) else none
  | c :: rest =>
    if c.isDigit then
      match digitsToNat rest with
      | some n => some ((c.toNat - 48) * 10 ^ rest.length + n)
      | none => none
    else none

/-- Split a char list at a separator char. -/
def splitChars (sep : Char) : List Char → List (List Char)
  | [] => [[]]
  | c :: rest =>
    match splitChars sep rest with
    | [] => [[]]
    | g :: gs => if c = sep then [] :: g :: gs else (c :: g) :: gs

/-- Parse `YYYY-MM-DD` to a key that orders like the calendar. -/
def parseIsoDate (s : String) : Option ℤ :=
  match splitChars '-' s.data with
  | [y, m, d] =>
    match digitsToNat y, digitsToNat m, digitsToNat d with
    | some a, some b, some c => some ((a * 10000 + b * 100 + c : ℕ) : ℤ)
    | _, _, _ => none
  | _ => none

/-- The sample date-parse instance used for concrete evaluations. -/
def dparseIso : Json → Option ℤ
  | .str s => parseIsoDate s
  | .num q => if q.den = 1 then some q.num else none
  | _ => none

/-! ## Ordering facts about the NaN-tolerant comparator -/

theorem jsLe_of_not_jsLe (k : α → Option ℤ) {a b : α} (h : ¬ jsLe k a b) :
    jsLe k b a := by
  unfold jsLe nanLe at *
  rcases ha : k a with _ | p <;> rcases hb : k b with _ | q <;>
    rw [ha, hb] at h <;> simp_all
  omega

theorem jsLe_trans_of_isSome {k : α → Option ℤ} {a b c : α}
    (ha : (k a).isSome) (hb : (k b).isSome) (hc : (k c).isSome)
    (h1 : jsLe k a b) (h2 : jsLe k b c) : jsLe k a c := by
  unfold jsLe nanLe at *
  rcases hka : k a with _ | p <;> rw [hka] at ha h1 <;> try simp at ha
  rcases hkb : k b with _ | q <;> rw [hkb] at hb h1 h2 <;> try simp at hb
  rcases hkc : k c with _ | r <;> rw [hkc] at hc h2 <;> try simp at hc
  simp only [decide_eq_true_eq] at h1 h2 ⊢
  omega

theorem sorted_orderedInsert_allSome (k : α → Option ℤ) (a : α) (L : List α)
    (ha : (k a).isSome) (hL : ∀ x ∈ L, (k x).isSome)
    (hs : L.Sorted (jsLe k)) :
    (L.orderedInsert (jsLe k) a).Sorted (jsLe k) := by
  induction L with
  | nil => simp [List.orderedInsert]
  | cons b t ih =>
    rw [List.orderedInsert]
    by_cases hab : jsLe k a b
    · rw [if_pos hab]
      refine List.sorted_cons.mpr ⟨?_, hs⟩
      intro z hz
      rcases List.mem_cons.mp hz with rfl | hz'
      · exact hab
      · exact jsLe_trans_of_isSome ha (hL b (List.mem_cons_self b t))
          (hL z (List.mem_cons_of_mem b hz')) hab
          ((List.sorted_cons.mp hs).1 z hz')
    · rw [if_neg hab]
      refine List.sorted_cons.mpr ⟨?_, ih (fun x hx => hL x (List.mem_cons_of_mem b hx))
        (List.sorted_cons.mp hs).2⟩
      intro z hz
      rcases (List.mem_orderedInsert (jsLe k)).mp hz with rfl | hz'
      · exact jsLe_of_not_jsLe k hab
      · exact (List.sorted_cons.mp hs).1 z hz'

theorem sorted_insertionSort_allSome (k : α → Option ℤ) (l : List α)
    (h : ∀ x ∈ l, (k x).isSome) :
    (l.insertionSort (jsLe k)).Sorted (jsLe k) := by
  induction l with
  | nil => simp
  | cons a t ih =>
    rw [List.insertionSort]
    exact sorted_orderedInsert_allSome k a _ (h a (List.mem_cons_self a t))
      (fun x hx => h x (List.mem_cons_of_mem a
        ((List.mem_insertionSort (jsLe k)).mp hx)))
      (ih (fun x hx => h x (List.mem_cons_of_mem a hx)))

/-- A collection is ascending under its temporal key: adjacent records
both have parseable keys and they are non-decreasing. -/
def keyLeS (k : α → Option ℤ) (a b : α) : Prop :=
  (k a).isSome = true ∧ (k b).isSome = true ∧ nanLe (k a) (k b) = true

instance (k : α → Option ℤ) : DecidableRel (keyLeS k) := fun _ _ => by
  unfold keyLeS; infer_instance

/-- "Sorted ascending by the temporal field, parsed as a date": every
adjacent pair of records has parseable, non-decreasing date keys. -/
def sortedByKey (k : α → Option ℤ) (l : List α) : Prop := l.Chain' (keyLeS k)

theorem sortedByKey_insertionSort (k : α → Option ℤ) (l : List α)
    (h : ∀ x ∈ l.insertionSort (jsLe k), (k x).isSome) :
    sortedByKey k (l.insertionSort (jsLe k)) := by
  have h' : ∀ x ∈ l, (k x).isSome := fun x hx =>
    h x ((List.mem_insertionSort (jsLe k)).mpr hx)
  have hs := sorted_insertionSort_allSome k l h'
  refine List.Pairwise.chain' (List.Pairwise.imp_of_mem ?_ hs)
  intro a b hma hmb hab
  exact ⟨h a hma, h b hmb, hab⟩

/-! ## Claim C1: totality of the record extractors -/

/-- C1 (amended): `parseSleepData` is total — it returns normally on every
JSON-parseable payload — but the other four extractors are not: each of
`parseWellnessData`, `parseHydrationData` and `parseActivities` throws on
the adversarial shapes exhibited here (and `parseMetricsData` on the one
in the counterexample). -/
theorem extractors_partial_totality :
    (∀ d : Json, (parseSleepData d).isOk = true) ∧
    parseWellnessData
      (.obj [("calendarDate", .str "2024-01-02"),
             ("allDayStress", .obj [("aggregatorList", .num 5)])]) = .error () ∧
    (∀ dparse : Json → Option ℤ,
      parseHydrationData dparse (.arr [.obj [("valueInML", .num 100)]]) = .error ()) ∧
    (∀ dparse : Json → Option ℤ,
      parseActivities dparse (.arr [.null]) = .error ()) := by
  refine ⟨?_, rfl, fun dparse => rfl, fun dparse => rfl⟩
  intro d
  rcases d with _ | b | q | s | items | fields <;> try rfl
  rcases hp : probeWrapper fields ["sleepData", "data", "records", "items"] with _ | l <;>
    simp only [parseSleepData, hp] <;> rfl

/-- C1 (counterexample): `parseMetricsData` — one of the five extractors —
throws a TypeError on the JSON-parseable payload `[null]` (reading
`.calendarDate` of `null`), so not every extractor is total. -/
theorem extractors_total_counterexample :
    parseMetricsData (.arr [.null]) = .error () := rfl

/-! ## Claim C6: case-sensitivity of the filename classification -/

/-- C6 (amended): classification is a first-match-wins chain in which the
`sleep` / `hydration` / `summarizedactivities` substring tests are
case-insensitive, but the `.json` suffix test and the `UDSFile_`,
`_summarizedActivities` and `MetricsMaxMetData_` substring tests are
case-sensitive: two filenames equal up to case receive the same category
provided they also agree on those four case-sensitive tests. -/
theorem classify_case_insensitive_amended (f g : String)
    (h1 : asciiLower f = asciiLower g)
    (h2 : strEndsWith f ".json" = strEndsWith g ".json")
    (h3 : strIncludes f "UDSFile_" = strIncludes g "UDSFile_")
    (h4 : strIncludes f "_summarizedActivities" = strIncludes g "_summarizedActivities")
    (h5 : strIncludes f "MetricsMaxMetData_" = strIncludes g "MetricsMaxMetData_") :
    classify f = classify g := by
  unfold classify
  rw [h1, h2, h3, h4, h5]

theorem classify_case_insensitive_amended_witness :
    (asciiLower "Sleep_Data.json" = asciiLower "sleep_data.json" ∧
     strEndsWith "Sleep_Data.json" ".json" = strEndsWith "sleep_data.json" ".json" ∧
     strIncludes "Sleep_Data.json" "UDSFile_" = strIncludes "sleep_data.json" "UDSFile_" ∧
     strIncludes "Sleep_Data.json" "_summarizedActivities" =
       strIncludes "sleep_data.json" "_summarizedActivities" ∧
     strIncludes "Sleep_Data.json" "MetricsMaxMetData_" =
       strIncludes "sleep_data.json" "MetricsMaxMetData_") ∧
    classify "Sleep_Data.json" = classify "sleep_data.json" :=
  ⟨⟨by decide, by decide, by decide, by decide, by decide⟩,
   classify_case_insensitive_amended _ _ (by decide) (by decide) (by decide)
     (by decide) (by decide)⟩

/-- C6 (counterexample): `sleep.json` and `SLEEP.JSON` differ only in
letter case, yet the chain classifies the first as sleep and the second as
nothing at all (the case-sensitive `.endsWith('.json')` test fails), so
classification is not case-insensitive on the filename. -/
theorem classify_case_insensitive_counterexample :
    asciiLower "sleep.json" = asciiLower "SLEEP.JSON" ∧
    classify "sleep.json" = FileCategory.sleep ∧
    classify "SLEEP.JSON" = FileCategory.other := by
  refine ⟨by decide, by decide, by decide⟩

/-! ## Characterizing the aggregator loop -/

/-- The empty export. -/
def emptyExport : GarminDataExport := ⟨[], [], [], [], []⟩

/-- What one archive entry contributes to the collections: nothing when it
is a directory or not JSON-parseable, its extraction otherwise. -/
def entryContrib (dparse : Json → Option ℤ) (e : ZEntry) : GarminDataExport :=
  if e.dir then emptyExport
  else
    match e.data with
    | none => emptyExport
    | some d => extractEntry dparse e.name d

theorem appendExport_empty (r : GarminDataExport) :
    appendExport r emptyExport = r := by
  rcases r with ⟨s, w, h, a, m⟩
  simp [appendExport, emptyExport]

theorem processEntry_result (dparse : Json → Option ℤ) (n : ℕ)
    (st : ParseState) (e : ZEntry) :
    (processEntry dparse n st e).result =
      appendExport st.result (entryContrib dparse e) := by
  unfold processEntry entryContrib
  rcases e with ⟨name, dir, data⟩
  cases dir
  · cases data
    · simp [appendExport_empty]
    · simp
  · simp [appendExport_empty]

theorem foldl_collection (dparse : Json → Option ℤ) (n : ℕ)
    (p : GarminDataExport → List α)
    (hp : ∀ r c, p (appendExport r c) = p r ++ p c) :
    ∀ (es : List ZEntry) (st : ParseState),
      p (es.foldl (processEntry dparse n) st).result =
        p st.result ++ (es.map (fun e => p (entryContrib dparse e))).flatten := by
  intro es
  induction es with
  | nil => intro st; simp
  | cons e t ih =>
    intro st
    rw [List.foldl_cons, ih, processEntry_result, hp]
    simp

theorem mem_foldl_collection (dparse : Json → Option ℤ) (n : ℕ)
    (p : GarminDataExport → List α)
    (hp : ∀ r c, p (appendExport r c) = p r ++ p c)
    (hp0 : p emptyExport = [])
    (es : List ZEntry) {x : α}
    (hx : x ∈ p (es.foldl (processEntry dparse n) ⟨emptyExport, 0, []⟩).result) :
    ∃ e ∈ es, x ∈ p (entryContrib dparse e) := by
  rw [foldl_collection dparse n p hp es ⟨emptyExport, 0, []⟩] at hx
  rcases List.mem_append.mp hx with h | h
  · rw [show (⟨emptyExport, 0, []⟩ : ParseState).result = emptyExport from rfl, hp0] at h
    exact absurd h (List.not_mem_nil x)
  · rcases List.mem_flatten.mp h with ⟨l, hl, hxl⟩
    rcases List.mem_map.mp hl with ⟨e, he, rfl⟩
    exact ⟨e, he, hxl⟩

/-! ## Field invariants of the extracted records -/

theorem lookup_setField_self (l : JRec) (k : String) (v : Option Json) :
    List.lookup k (setField l k v) = some v := by
  induction l with
  | nil => simp [setField]
  | cons p t ih =>
    rcases p with ⟨k', v'⟩
    rw [setField]
    by_cases hk : k' = k
    · rw [if_pos hk]
      simp
    · rw [if_neg hk]
      rw [List.lookup_cons]
      have : (k == k') = false := by
        simp only [beq_eq_false_iff_ne, ne_eq]
        exact fun h => hk h.symm
      rw [this]
      exact ih

theorem lookup_toRec (fields : List (String × Json)) (k : String) :
    List.lookup k (toRec (.obj fields)) = (fields.lookup k).map some := by
  induction fields with
  | nil => simp [toRec]
  | cons p t ih =>
    rcases p with ⟨k', v'⟩
    simp only [toRec, List.map_cons, List.lookup_cons] at *
    by_cases hk : (k == k')
    · rw [hk]; simp
    · rw [Bool.not_eq_true] at hk
      rw [hk]
      exact ih

theorem recGet_toRec (fields : List (String × Json)) (k : String) :
    recGet (toRec (.obj fields)) k = fields.lookup k := by
  rw [recGet, lookup_toRec]
  rcases fields.lookup k with _ | v <;> rfl

theorem truthyO_jsOr {a b : Option Json} (h : (truthyO a || truthyO b) = true) :
    truthyO (jsOr a b) = true := by
  by_cases ha : truthyO a = true
  · simp [jsOr, ha]
  · have hb : truthyO b = true := by
      simp only [Bool.or_eq_true] at h
      rcases h with h' | h'
      · exact absurd h' ha
      · exact h'
    simp [jsOr, ha, hb]

/-- Every wellness record the mapping extractor emits carries the source's
truthy `calendarDate`. -/
theorem recGet_mkWellnessRec_calendarDate (fs : List (String × Json))
    (agg : Option Json) :
    recGet (mkWellnessRec fs agg) "calendarDate" = fs.lookup "calendarDate" := rfl

/-- Every wellness record the mapping extractor emits carries the source's
truthy `calendarDate`. -/
theorem parseWellnessData_calendarDate {r : Json} {w : JRec}
    (h : parseWellnessData r = .ok (some w)) :
    truthyO (recGet w "calendarDate") = true := by
  unfold parseWellnessData at h
  split at h
  · rename_i fields
    split at h
    · rename_i hcd
      split at h
      · exact absurd h (by simp)
      · rw [Except.ok.injEq, Option.some.injEq] at h
        rw [← h, recGet_mkWellnessRec_calendarDate]
        exact hcd
    · exact absurd h (by simp)
  · exact absurd h (by simp)

/-- Every metrics record the extractor emits carries a truthy
`calendarDate` (either branch installs one). -/
theorem recGet_setField_self (l : JRec) (k : String) (v : Option Json) :
    recGet (setField l k v) k = v := by
  rw [recGet, lookup_setField_self]
  rcases v with _ | x <;> rfl

theorem parseMetricsData_calendarDate {d : Json} {m : JRec}
    (h : parseMetricsData d = .ok (some m)) :
    truthyO (recGet m "calendarDate") = true := by
  rcases d with _ | b | q | s | items | fields
  · simp [parseMetricsData] at h
  · simp [parseMetricsData] at h
  · simp [parseMetricsData] at h
  · simp [parseMetricsData] at h
  · rcases items with _ | ⟨first, rest⟩
    · simp [parseMetricsData] at h
    · rcases hjs : jsGet first "calendarDate" with u | c
      · simp [parseMetricsData, hjs] at h
      · simp only [parseMetricsData, hjs] at h
        by_cases htr : truthyO c = true
        · rw [if_pos htr, Except.ok.injEq, Option.some.injEq] at h
          rcases first with _ | b | q | s | its | fields
          · simp [jsGet] at hjs
          · simp [jsGet] at hjs
            rw [← hjs] at htr
            simp [truthyO] at htr
          · simp [jsGet] at hjs
            rw [← hjs] at htr
            simp [truthyO] at htr
          · simp [jsGet] at hjs
            rw [← hjs] at htr
            simp [truthyO] at htr
          · simp [jsGet] at hjs
            rw [← hjs] at htr
            simp [truthyO] at htr
          · simp only [jsGet, Except.ok.injEq] at hjs
            rw [← h, recGet_toRec, hjs]
            exact htr
        · rw [if_neg htr] at h
          exact absurd h (by simp)
  · simp only [parseMetricsData] at h
    by_cases hcond : (truthyO (List.lookup "calendarDate" fields) ||
        truthyO (List.lookup "metricsDate" fields)) = true
    · rw [if_pos hcond, Except.ok.injEq, Option.some.injEq] at h
      rw [← h, recGet_setField_self]
      exact truthyO_jsOr hcond
    · rw [if_neg hcond] at h
      exact absurd h (by simp)

theorem truthy_isoOfTime (t : ℤ) : truthy (.str (isoOfTime t)) = true := by
  simp only [truthy, isoOfTime, decide_eq_true_eq]
  intro h
  have h2 : ("D" ++ toString t).data = "".data := by rw [h]
  have h3 : ('D' :: (toString t).data) = [] := h2
  simp at h3

/-- A member of a successful throwing-map's output comes from some input
element. -/
theorem mapME_ok_mem {f : α → Except Unit β} {l : List α} {out : List β}
    (h : mapME f l = .ok out) {b : β} (hb : b ∈ out) : ∃ x ∈ l, f x = .ok b := by
  induction l generalizing out with
  | nil =>
    rw [mapME, Except.ok.injEq] at h
    rw [← h] at hb
    exact absurd hb (List.not_mem_nil b)
  | cons x t ih =>
    rw [mapME] at h
    rcases hfx : f x with u | y <;> rw [hfx] at h
    · exact absurd h (by simp)
    · rcases hmt : mapME f t with u | ys <;> rw [hmt] at h
      · exact absurd h (by simp)
      · rw [Except.ok.injEq] at h
        rw [← h] at hb
        rcases List.mem_cons.mp hb with rfl | hb'
        · exact ⟨x, List.mem_cons_self x t, hfx⟩
        · rcases ih hmt hb' with ⟨z, hz, hfz⟩
          exact ⟨z, List.mem_cons_of_mem x hz, hfz⟩

/-- Every record built for a `summarizedActivitiesExport` activity stores
a synthesized ISO `startTimeGMT`. -/
theorem mkActivityRec_startTimeGMT {dparse : Json → Option ℤ} {act : Json}
    {r : JRec} (h : mkActivityRec dparse act = .ok r) :
    ∃ t : ℤ, recGet r "startTimeGMT" = some (.str (isoOfTime t)) := by
  unfold mkActivityRec at h
  split at h
  · exact absurd h (by simp)
  split at h
  · exact absurd h (by simp)
  split at h
  · exact absurd h (by simp)
  split at h
  · exact absurd h (by simp)
  split at h
  · exact absurd h (by simp)
  rename_i stGMT hiso
  split at h
  · exact absurd h (by simp)
  split at h
  · exact absurd h (by simp)
  split at h
  · exact absurd h (by simp)
  rw [Except.ok.injEq] at h
  unfold jsNewDateISO at hiso
  split at hiso
  · exact absurd hiso (by simp)
  · rename_i t ht
    rw [Except.ok.injEq] at hiso
    refine ⟨t, ?_⟩
    rw [← h, ← hiso]
    rfl

/-- Records kept by the flat-activity filter carry the truthy
`startTimeGMT` that the filter required. -/
theorem flat_activity_startTimeGMT {items : List Json} {a : JRec}
    (ha : a ∈ (items.filter activityKeep).map toRec) :
    truthyO (recGet a "startTimeGMT") = true := by
  rcases List.mem_map.mp ha with ⟨it, hit, rfl⟩
  have hk := List.of_mem_filter hit
  simp only [activityKeep, Bool.and_eq_true] at hk
  have h3 : truthyO (getF it "startTimeGMT") = true := hk.2
  rcases it with _ | b | q | s | its | fields
  · simp [getF, truthyO] at h3
  · simp [getF, truthyO] at h3
  · simp [getF, truthyO] at h3
  · simp [getF, truthyO] at h3
  · simp [getF, truthyO] at h3
  · rw [recGet_toRec]
    exact h3

/-- Every activity record the extractor emits carries a truthy
`startTimeGMT` (required by the flat filter, synthesized as an ISO string
by the wrapper mapping). -/
theorem parseActivities_startTimeGMT {dparse : Json → Option ℤ} {d : Json}
    {l : List JRec} (h : parseActivities dparse d = .ok l) {a : JRec}
    (ha : a ∈ l) : truthyO (recGet a "startTimeGMT") = true := by
  rcases d with _ | b | q | s | items | fields
  · simp only [parseActivities, Except.ok.injEq] at h
    rw [← h] at ha
    exact absurd ha (List.not_mem_nil a)
  · simp only [parseActivities, Except.ok.injEq] at h
    rw [← h] at ha
    exact absurd ha (List.not_mem_nil a)
  · simp only [parseActivities, Except.ok.injEq] at h
    rw [← h] at ha
    exact absurd ha (List.not_mem_nil a)
  · simp only [parseActivities, Except.ok.injEq] at h
    rw [← h] at ha
    exact absurd ha (List.not_mem_nil a)
  · rcases items with _ | ⟨first, rest⟩
    · simp only [parseActivities, List.filter_nil, List.map_nil,
        Except.ok.injEq] at h
      rw [← h] at ha
      exact absurd ha (List.not_mem_nil a)
    · simp only [parseActivities] at h
      split at h
      · exact absurd h (by simp)
      · rename_i sae hsae
        by_cases htr : truthyO sae = true
        · rw [if_pos htr] at h
          split at h
          · exact absurd h (by simp)
          · rename_i parts hparts
            rw [Except.ok.injEq] at h
            rw [← h] at ha
            rcases List.mem_flatten.mp ha with ⟨part, hpart, hap⟩
            rcases mapME_ok_mem hparts hpart with ⟨item, _, hwrap⟩
            unfold activitiesOfWrapper at hwrap
            split at hwrap
            · exact absurd hwrap (by simp)
            · rcases mapME_ok_mem hwrap hap with ⟨act, _, hmk⟩
              rcases mkActivityRec_startTimeGMT hmk with ⟨t, hgt⟩
              rw [hgt]
              simp only [truthyO]
              exact truthy_isoOfTime t
            · rw [Except.ok.injEq] at hwrap
              rw [← hwrap] at hap
              exact absurd hap (List.not_mem_nil a)
        · rw [if_neg htr, Except.ok.injEq] at h
          rw [← h] at ha
          exact flat_activity_startTimeGMT ha
  · simp only [parseActivities] at h
    split at h
    · rw [Except.ok.injEq] at h
      rw [← h] at ha
      exact flat_activity_startTimeGMT ha
    · rw [Except.ok.injEq] at h
      rw [← h] at ha
      exact absurd ha (List.not_mem_nil a)

/-- Every record the UDS branch pushes comes from a successful
`parseWellnessData` on some array element. -/
theorem udsFold_mem {l : List Json} {w : JRec} (hw : w ∈ udsFold l) :
    ∃ r ∈ l, parseWellnessData r = .ok (some w) := by
  induction l with
  | nil => exact absurd hw (List.not_mem_nil w)
  | cons r t ih =>
    rw [udsFold] at hw
    split at hw
    · exact absurd hw (List.not_mem_nil w)
    · rcases ih hw with ⟨z, hz, hpz⟩
      exact ⟨z, List.mem_cons_of_mem r hz, hpz⟩
    · rename_i w' hw'
      rcases List.mem_cons.mp hw with rfl | hw2
      · exact ⟨r, List.mem_cons_self r t, hw'⟩
      · rcases ih hw2 with ⟨z, hz, hpz⟩
        exact ⟨z, List.mem_cons_of_mem r hz, hpz⟩

theorem extractEntry_wellness_mem {dparse : Json → Option ℤ} {name : String}
    {d : Json} {w : JRec}
    (hw : w ∈ (extractEntry dparse name d).wellnessData) :
    ∃ r : Json, parseWellnessData r = .ok (some w) := by
  cases hc : classify name <;> simp only [extractEntry, hc] at hw
  case wellness =>
    rcases d with _ | b | q | s | recs | fields <;>
      first
      | exact absurd hw (List.not_mem_nil w)
      | (rcases udsFold_mem hw with ⟨r, _, hr⟩; exact ⟨r, hr⟩)
  all_goals exact absurd hw (List.not_mem_nil w)

theorem extractEntry_metrics_mem {dparse : Json → Option ℤ} {name : String}
    {d : Json} {m : JRec}
    (hm : m ∈ (extractEntry dparse name d).metricsData) :
    ∃ r : Json, parseMetricsData r = .ok (some m) := by
  cases hc : classify name <;> simp only [extractEntry, hc] at hm
  case metrics =>
    split at hm
    · split at hm
      · rename_i x hx
        rcases List.mem_cons.mp hm with rfl | hnil
        · exact ⟨_, hx⟩
        · exact absurd hnil (List.not_mem_nil m)
      · exact absurd hm (List.not_mem_nil m)
    · exact absurd hm (List.not_mem_nil m)
  all_goals exact absurd hm (List.not_mem_nil m)

theorem extractEntry_activities_mem {dparse : Json → Option ℤ} {name : String}
    {d : Json} {a : JRec}
    (ha : a ∈ (extractEntry dparse name d).activities) :
    ∃ d' l, parseActivities dparse d' = .ok l ∧ a ∈ l := by
  cases hc : classify name <;> simp only [extractEntry, hc] at ha
  case activity =>
    unfold okList at ha
    split at ha
    · rename_i l hl
      exact ⟨d, l, hl, ha⟩
    · exact absurd ha (List.not_mem_nil a)
  all_goals exact absurd ha (List.not_mem_nil a)

theorem entryContrib_wellness_mem {dparse : Json → Option ℤ} {e : ZEntry}
    {w : JRec} (hw : w ∈ (entryContrib dparse e).wellnessData) :
    ∃ r : Json, parseWellnessData r = .ok (some w) := by
  unfold entryContrib at hw
  split at hw
  · exact absurd hw (List.not_mem_nil w)
  · split at hw
    · exact absurd hw (List.not_mem_nil w)
    · exact extractEntry_wellness_mem hw

theorem entryContrib_metrics_mem {dparse : Json → Option ℤ} {e : ZEntry}
    {m : JRec} (hm : m ∈ (entryContrib dparse e).metricsData) :
    ∃ r : Json, parseMetricsData r = .ok (some m) := by
  unfold entryContrib at hm
  split at hm
  · exact absurd hm (List.not_mem_nil m)
  · split at hm
    · exact absurd hm (List.not_mem_nil m)
    · exact extractEntry_metrics_mem hm

theorem entryContrib_activities_mem {dparse : Json → Option ℤ} {e : ZEntry}
    {a : JRec} (ha : a ∈ (entryContrib dparse e).activities) :
    ∃ d' l, parseActivities dparse d' = .ok l ∧ a ∈ l := by
  unfold entryContrib at ha
  split at ha
  · exact absurd ha (List.not_mem_nil a)
  · split at ha
    · exact absurd ha (List.not_mem_nil a)
    · exact extractEntry_activities_mem ha

theorem parseGarminData_sleep_eq (dparse : Json → Option ℤ) (es : List ZEntry) :
    (parseGarminData dparse es).result.sleepData =
      ((es.foldl (processEntry dparse es.length)
        ⟨emptyExport, 0, []⟩).result.sleepData).insertionSort
        (jsLe (sleepKey dparse)) := rfl

theorem parseGarminData_wellness_eq (dparse : Json → Option ℤ) (es : List ZEntry) :
    (parseGarminData dparse es).result.wellnessData =
      ((es.foldl (processEntry dparse es.length)
        ⟨emptyExport, 0, []⟩).result.wellnessData).insertionSort
        (jsLe (calendarKey dparse)) := rfl

theorem parseGarminData_hydration_eq (dparse : Json → Option ℤ) (es : List ZEntry) :
    (parseGarminData dparse es).result.hydrationData =
      ((es.foldl (processEntry dparse es.length)
        ⟨emptyExport, 0, []⟩).result.hydrationData).insertionSort
        (jsLe (calendarKey dparse)) := rfl

theorem parseGarminData_activities_eq (dparse : Json → Option ℤ) (es : List ZEntry) :
    (parseGarminData dparse es).result.activities =
      ((es.foldl (processEntry dparse es.length)
        ⟨emptyExport, 0, []⟩).result.activities).insertionSort
        (jsLe (activityKey dparse)) := rfl

theorem parseGarminData_metrics_eq (dparse : Json → Option ℤ) (es : List ZEntry) :
    (parseGarminData dparse es).result.metricsData =
      ((es.foldl (processEntry dparse es.length)
        ⟨emptyExport, 0, []⟩).result.metricsData).insertionSort
        (jsLe (calendarKey dparse)) := rfl

/-! ## Claim C4: temporal fields of stored records -/

/-- C4 (amended): extraction filters on shape only; the wellness and
metrics collections only store records with a truthy `calendarDate`, and
the activities collection only records with a truthy `startTimeGMT`, but
sleep and hydration records may lack their temporal field entirely (see
the counterexample). -/
theorem stored_records_temporal_fields (dparse : Json → Option ℤ)
    (es : List ZEntry) :
    (∀ w ∈ (parseGarminData dparse es).result.wellnessData,
       truthyO (recGet w "calendarDate") = true) ∧
    (∀ m ∈ (parseGarminData dparse es).result.metricsData,
       truthyO (recGet m "calendarDate") = true) ∧
    (∀ a ∈ (parseGarminData dparse es).result.activities,
       truthyO (recGet a "startTimeGMT") = true) := by
  refine ⟨fun w hw => ?_, fun m hm => ?_, fun a ha => ?_⟩
  · rw [parseGarminData_wellness_eq, List.mem_insertionSort] at hw
    rcases mem_foldl_collection dparse es.length (fun r => r.wellnessData)
      (fun r c => rfl) rfl es hw with ⟨e, _, hwe⟩
    rcases entryContrib_wellness_mem hwe with ⟨r, hr⟩
    exact parseWellnessData_calendarDate hr
  · rw [parseGarminData_metrics_eq, List.mem_insertionSort] at hm
    rcases mem_foldl_collection dparse es.length (fun r => r.metricsData)
      (fun r c => rfl) rfl es hm with ⟨e, _, hme⟩
    rcases entryContrib_metrics_mem hme with ⟨r, hr⟩
    exact parseMetricsData_calendarDate hr
  · rw [parseGarminData_activities_eq, List.mem_insertionSort] at ha
    rcases mem_foldl_collection dparse es.length (fun r => r.activities)
      (fun r c => rfl) rfl es ha with ⟨e, _, hae⟩
    rcases entryContrib_activities_mem hae with ⟨d', l, hl, hal⟩
    exact parseActivities_startTimeGMT hl hal

/-- C4 (counterexample): the archive with one sleep file `[{}]` stores the
record `{}` in the sleep collection although it has no
`sleepStartTimestampGMT` at all — an element lacking the temporal field is
kept, not dropped. -/
theorem temporal_field_counterexample :
    Json.obj [] ∈ (parseGarminData dparseIso
      [⟨"sleep.json", false, some (.arr [.obj []])⟩]).result.sleepData ∧
    getF (Json.obj []) "sleepStartTimestampGMT" = none := by
  constructor
  · show Json.obj [] ∈ [Json.obj []]
    exact List.mem_singleton.mpr rfl
  · rfl

theorem stored_records_temporal_fields_witness :
    mkWellnessRec [("calendarDate", .str "2024-01-03")] none ∈
      (parseGarminData dparseIso
        [⟨"UDSFile_1.json", false,
          some (.arr [.obj [("calendarDate", .str "2024-01-03")]])⟩]).result.wellnessData ∧
    truthyO (recGet (mkWellnessRec [("calendarDate", .str "2024-01-03")] none)
      "calendarDate") = true := by
  have hmem : mkWellnessRec [("calendarDate", .str "2024-01-03")] none ∈
      (parseGarminData dparseIso
        [⟨"UDSFile_1.json", false,
          some (.arr [.obj [("calendarDate", .str "2024-01-03")]])⟩]).result.wellnessData := by
    show mkWellnessRec [("calendarDate", .str "2024-01-03")] none ∈
      [mkWellnessRec [("calendarDate", .str "2024-01-03")] none]
    exact List.mem_singleton.mpr rfl
  exact ⟨hmem, (stored_records_temporal_fields dparseIso _).1 _ hmem⟩

/-! ## Claim C3: per-collection chronological sorting -/

/-- C3 (amended): when every stored record's designated temporal field
parses to a valid date, each of the five collections is sorted ascending
by that date; when some record's field does not parse, the comparator
returns `NaN` and the guarantee is lost (see the counterexample). -/
theorem collections_sorted_amended (dparse : Json → Option ℤ)
    (es : List ZEntry)
    (h1 : ∀ r ∈ (parseGarminData dparse es).result.sleepData,
      (sleepKey dparse r).isSome = true)
    (h2 : ∀ r ∈ (parseGarminData dparse es).result.wellnessData,
      (calendarKey dparse r).isSome = true)
    (h3 : ∀ r ∈ (parseGarminData dparse es).result.hydrationData,
      (calendarKey dparse r).isSome = true)
    (h4 : ∀ r ∈ (parseGarminData dparse es).result.activities,
      (activityKey dparse r).isSome = true)
    (h5 : ∀ r ∈ (parseGarminData dparse es).result.metricsData,
      (calendarKey dparse r).isSome = true) :
    sortedByKey (sleepKey dparse) (parseGarminData dparse es).result.sleepData ∧
    sortedByKey (calendarKey dparse) (parseGarminData dparse es).result.wellnessData ∧
    sortedByKey (calendarKey dparse) (parseGarminData dparse es).result.hydrationData ∧
    sortedByKey (activityKey dparse) (parseGarminData dparse es).result.activities ∧
    sortedByKey (calendarKey dparse) (parseGarminData dparse es).result.metricsData := by
  rw [parseGarminData_sleep_eq] at h1 ⊢
  rw [parseGarminData_wellness_eq] at h2 ⊢
  rw [parseGarminData_hydration_eq] at h3 ⊢
  rw [parseGarminData_activities_eq] at h4 ⊢
  rw [parseGarminData_metrics_eq] at h5 ⊢
  exact ⟨sortedByKey_insertionSort _ _ h1, sortedByKey_insertionSort _ _ h2,
    sortedByKey_insertionSort _ _ h3, sortedByKey_insertionSort _ _ h4,
    sortedByKey_insertionSort _ _ h5⟩

/-- C3 (counterexample): an archive whose sleep file holds one dated
record and one record with no timestamp produces a sleep collection that
is not sorted ascending by the parsed field — the dateless record's key is
`NaN` and order-by-date fails. -/
theorem collections_sorted_counterexample :
    ¬ sortedByKey (sleepKey dparseIso)
      (parseGarminData dparseIso
        [⟨"sleep.json", false, some (.arr
          [.obj [("sleepStartTimestampGMT", .str "2024-01-02")],
           .obj []])⟩]).result.sleepData := by
  intro h
  have he : (parseGarminData dparseIso
      [⟨"sleep.json", false, some (.arr
        [.obj [("sleepStartTimestampGMT", .str "2024-01-02")],
         .obj []])⟩]).result.sleepData =
      [.obj [("sleepStartTimestampGMT", .str "2024-01-02")], .obj []] := rfl
  rw [he] at h
  have h2 := (List.chain'_cons.mp h).1
  exact absurd h2.2.1 (by decide)

theorem collections_sorted_amended_witness :
    ((∀ r ∈ (parseGarminData dparseIso
        [⟨"night-sleep.json", false, some (.arr
          [.obj [("sleepStartTimestampGMT", .str "2024-01-02")],
           .obj [("sleepStartTimestampGMT", .str "2024-01-01")]])⟩]).result.sleepData,
        (sleepKey dparseIso r).isSome = true) ∧
     (∀ r ∈ (parseGarminData dparseIso
        [⟨"night-sleep.json", false, some (.arr
          [.obj [("sleepStartTimestampGMT", .str "2024-01-02")],
           .obj [("sleepStartTimestampGMT", .str "2024-01-01")]])⟩]).result.wellnessData,
        (calendarKey dparseIso r).isSome = true)) ∧
    sortedByKey (sleepKey dparseIso)
      (parseGarminData dparseIso
        [⟨"night-sleep.json", false, some (.arr
          [.obj [("sleepStartTimestampGMT", .str "2024-01-02")],
           .obj [("sleepStartTimestampGMT", .str "2024-01-01")]])⟩]).result.sleepData :=
  ⟨⟨by decide, by decide⟩,
   (collections_sorted_amended dparseIso _
     (by decide) (by decide) (by decide) (by decide) (by decide)).1⟩

/-! ## Claim C5: wellness extraction from list-shaped UDS payloads -/

/-- What one array element of a UDS payload yields when its mapping does
not throw. -/
def wellnessOk (r : Json) : Option JRec :=
  match parseWellnessData r with
  | .ok o => o
  | .error _ => none

theorem udsFold_eq_filterMap (l : List Json)
    (h : ∀ r ∈ l, (parseWellnessData r).isOk = true) :
    udsFold l = l.filterMap wellnessOk := by
  induction l with
  | nil => rfl
  | cons r t ih =>
    rcases hp : parseWellnessData r with u | o
    · have hr := h r (List.mem_cons_self r t)
      rw [hp] at hr
      exact absurd hr (by simp [Except.isOk, Except.toBool])
    · have hwk : wellnessOk r = o := by rw [wellnessOk, hp]
      rcases o with _ | w
      · have hl : udsFold (r :: t) = udsFold t := by rw [udsFold, hp]
        have hrr : List.filterMap wellnessOk (r :: t) =
            List.filterMap wellnessOk t := by
          rw [List.filterMap_cons, hwk]
        rw [hl, hrr]
        exact ih (fun x hx => h x (List.mem_cons_of_mem r hx))
      · have hl : udsFold (r :: t) = w :: udsFold t := by rw [udsFold, hp]
        have hrr : List.filterMap wellnessOk (r :: t) =
            w :: List.filterMap wellnessOk t := by
          rw [List.filterMap_cons, hwk]
        rw [hl, hrr, ih (fun x hx => h x (List.mem_cons_of_mem r hx))]

theorem wellnessOk_isSome_of_calendarDate {r : Json}
    (h : (parseWellnessData r).isOk = true)
    (hcd : truthyO (getF r "calendarDate") = true) :
    (wellnessOk r).isSome = true := by
  rcases r with _ | b | q | s | items | fields
  · simp [getF, truthyO] at hcd
  · simp [getF, truthyO] at hcd
  · simp [getF, truthyO] at hcd
  · simp [getF, truthyO] at hcd
  · simp [getF, truthyO] at hcd
  · have hcd' : truthyO (List.lookup "calendarDate" fields) = true := hcd
    rcases hagg : stressTotalAgg fields with u | agg
    · have hbad : parseWellnessData (.obj fields) = .error u := by
        simp only [parseWellnessData]
        rw [if_pos hcd', hagg]
      rw [hbad] at h
      exact absurd h (by simp [Except.isOk, Except.toBool])
    · have hgood : parseWellnessData (.obj fields) =
          .ok (some (mkWellnessRec fields agg)) := by
        simp only [parseWellnessData]
        rw [if_pos hcd', hagg]
      rw [wellnessOk, hgood]
      rfl

/-- C5 (amended): when the UDS payload is a list and no element's mapping
throws, the branch extracts exactly the records of the elements accepted
by `parseWellnessData` — in particular every element carrying a truthy
calendar-date field contributes a record, not only the first and not zero.
When some element's mapping throws, extraction stops there and the
remaining elements (even date-carrying ones) are lost. -/
theorem uds_extracts_every_element (l : List Json)
    (h : ∀ r ∈ l, (parseWellnessData r).isOk = true) :
    udsFold l = l.filterMap wellnessOk ∧
    (∀ r ∈ l, truthyO (getF r "calendarDate") = true →
      (wellnessOk r).isSome = true) :=
  ⟨udsFold_eq_filterMap l h,
   fun r hr hcd => wellnessOk_isSome_of_calendarDate (h r hr) hcd⟩

theorem uds_extracts_every_element_witness :
    (∀ r ∈ [Json.obj [("calendarDate", Json.str "2024-01-01")], Json.num 3,
        Json.obj [("calendarDate", Json.str "2024-01-02")]],
      (parseWellnessData r).isOk = true) ∧
    (udsFold [Json.obj [("calendarDate", Json.str "2024-01-01")], Json.num 3,
        Json.obj [("calendarDate", Json.str "2024-01-02")]] =
      List.filterMap wellnessOk
        [Json.obj [("calendarDate", Json.str "2024-01-01")], Json.num 3,
         Json.obj [("calendarDate", Json.str "2024-01-02")]] ∧
     (∀ r ∈ [Json.obj [("calendarDate", Json.str "2024-01-01")], Json.num 3,
        Json.obj [("calendarDate", Json.str "2024-01-02")]],
       truthyO (getF r "calendarDate") = true →
         (wellnessOk r).isSome = true)) :=
  ⟨by decide, uds_extracts_every_element _ (by decide)⟩

/-- C5 (counterexample): in a UDS file `[A, T, C]` where `A` and `C` carry
calendar dates but `T`'s stress chain throws, only `A`'s record is stored:
`C` — an element of the list carrying a calendar-date field — is not
extracted, refuting "extracts every element that carries a calendar-date
field". -/
theorem uds_extracts_every_element_counterexample :
    (parseGarminData dparseIso
      [⟨"UDSFile_2.json", false, some (.arr
        [.obj [("calendarDate", .str "2024-01-01")],
         .obj [("calendarDate", .str "2024-01-02"),
               ("allDayStress", .obj [("aggregatorList", .num 5)])],
         .obj [("calendarDate", .str "2024-01-03")]])⟩]).result.wellnessData.length = 1 ∧
    truthyO (getF (.obj [("calendarDate", .str "2024-01-03")]) "calendarDate") = true :=
  ⟨rfl, rfl⟩

/-! ## Claim C2: round-trip of one sleep file plus one corrupt file -/

/-- Full evaluation of the aggregator on the two-entry archive: the sleep
file is extracted and counted, the non-JSON file is skipped by `continue`
before the counter increment and the progress callback, so only one
progress value — one half — is ever reported. -/
theorem sleepArchive_eval (dparse : Json → Option ℤ) (recs : List Json) :
    parseGarminData dparse
      [⟨"sleepData.json", false, some (.arr recs)⟩,
       ⟨"corrupt.txt", false, none⟩] =
      ⟨⟨(recs.filter objShaped).insertionSort (jsLe (sleepKey dparse)),
        [], [], [], []⟩, 1, [1/2]⟩ := by
  have hclass : classify "sleepData.json" = FileCategory.sleep := by decide
  simp only [parseGarminData, List.length_cons, List.length_nil,
    List.foldl_cons, List.foldl_nil, processEntry, extractEntry, hclass,
    parseSleepData, okList, appendExport, sortResult, emptyExport]
  norm_num [List.insertionSort]

/-- C2 (amended): an archive of one sleep file with N object-shaped
records plus one non-JSON file yields exactly N sleep records with no
thrown error; but the non-JSON file is skipped without being counted as
processed (`continue` precedes the counter increment), so the processed
count stays at 1 and the only — hence final — progress value is 1/2, not
1.0. -/
theorem sleep_roundtrip_amended (dparse : Json → Option ℤ)
    (recs : List Json) (h : ∀ r ∈ recs, objShaped r = true) :
    (parseGarminData dparse
      [⟨"sleepData.json", false, some (.arr recs)⟩,
       ⟨"corrupt.txt", false, none⟩]).result.sleepData.length = recs.length ∧
    (parseGarminData dparse
      [⟨"sleepData.json", false, some (.arr recs)⟩,
       ⟨"corrupt.txt", false, none⟩]).processedFiles = 1 ∧
    (parseGarminData dparse
      [⟨"sleepData.json", false, some (.arr recs)⟩,
       ⟨"corrupt.txt", false, none⟩]).progress = [1/2] := by
  rw [sleepArchive_eval]
  refine ⟨?_, rfl, rfl⟩
  rw [show (⟨⟨(recs.filter objShaped).insertionSort (jsLe (sleepKey dparse)),
      [], [], [], []⟩, 1, [1/2]⟩ : ParseState).result.sleepData =
      (recs.filter objShaped).insertionSort (jsLe (sleepKey dparse)) from rfl]
  rw [(List.perm_insertionSort (jsLe (sleepKey dparse)) _).length_eq]
  rw [List.filter_eq_self.mpr h]

theorem sleep_roundtrip_amended_witness :
    (∀ r ∈ [Json.obj [("deepSleepSeconds", Json.num 3600)]], objShaped r = true) ∧
    ((parseGarminData dparseIso
      [⟨"sleepData.json", false,
        some (.arr [Json.obj [("deepSleepSeconds", Json.num 3600)]])⟩,
       ⟨"corrupt.txt", false, none⟩]).result.sleepData.length =
        [Json.obj [("deepSleepSeconds", Json.num 3600)]].length ∧
     (parseGarminData dparseIso
      [⟨"sleepData.json", false,
        some (.arr [Json.obj [("deepSleepSeconds", Json.num 3600)]])⟩,
       ⟨"corrupt.txt", false, none⟩]).processedFiles = 1 ∧
     (parseGarminData dparseIso
      [⟨"sleepData.json", false,
        some (.arr [Json.obj [("deepSleepSeconds", Json.num 3600)]])⟩,
       ⟨"corrupt.txt", false, none⟩]).progress = [1/2]) :=
  ⟨by decide, sleep_roundtrip_amended dparseIso _ (by decide)⟩

/-- C2 (counterexample): with one valid single-record sleep file and one
non-JSON file, the sleep collection does hold the one record and nothing
throws, but the processed counter ends at 1 (the non-JSON file was never
counted) and the final value passed to the progress callback is 1/2, not
1.0 — refuting the claim's progress conjuncts. -/
theorem sleep_roundtrip_counterexample :
    (parseGarminData dparseIso
      [⟨"sleepData.json", false, some (.arr [Json.obj []])⟩,
       ⟨"corrupt.txt", false, none⟩]).result.sleepData.length = 1 ∧
    (parseGarminData dparseIso
      [⟨"sleepData.json", false, some (.arr [Json.obj []])⟩,
       ⟨"corrupt.txt", false, none⟩]).processedFiles = 1 ∧
    (parseGarminData dparseIso
      [⟨"sleepData.json", false, some (.arr [Json.obj []])⟩,
       ⟨"corrupt.txt", false, none⟩]).progress.getLast? = some (1/2 : ℚ) ∧
    (1/2 : ℚ) ≠ 1 := by
  rw [sleepArchive_eval dparseIso [Json.obj []]]
  refine ⟨rfl, rfl, rfl, by norm_num⟩

/-! ## The correlation engine (`correlationAnalysis.ts`)

Numeric series are embedded as lists of real numbers; `Math.sqrt`,
`Math.pow` and `Math.PI` become their real counterparts. -/

/-- The `{r, pValue}` pair returned by the correlation functions. -/
structure CorrResult where
  r : ℝ
  pValue : ℝ

theorem CorrResult_mk_r (a b : ℝ) : (CorrResult.mk a b).r = a := rfl

theorem CorrResult_mk_pValue (a b : ℝ) : (CorrResult.mk a b).pValue = b := rfl

/-- `approximatePValue` (correlationAnalysis.ts lines 43-52): the
beta-approximation of a two-tailed Student-t p-value, clamped into
`[0, 1]` by `Math.min(1, Math.max(0, ...))`. -/
noncomputable def approximatePValue (t df : ℝ) : ℝ :=
  let beta := Real.sqrt (Real.pi * df) * (1 + t * t / df) ^ (-(df + 1) / 2) /
    Real.sqrt df
  min 1 (max 0 (2 * beta))

/-- The product under the square root of the Pearson denominator:
`(n * sumX2 - sumX * sumX) * (n * sumY2 - sumY * sumY)` with
`n = x.length`. -/
def corrProdTerm (x y : List ℝ) : ℝ :=
  ((x.length : ℝ) * (x.map (fun v => v * v)).sum - x.sum * x.sum) *
    ((x.length : ℝ) * (y.map (fun v => v * v)).sum - y.sum * y.sum)

open Classical in
/-- `calculateCorrelation` (lines 15-40): fail-soft `{r: 0, pValue: 1}`
when the lengths differ or are below 3 or the denominator
`Math.sqrt(corrProdTerm)` is zero; otherwise the Pearson coefficient with
the approximate p-value on `n - 2` degrees of freedom. -/
noncomputable def calculateCorrelation (x y : List ℝ) : CorrResult :=
  if x.length ≠ y.length ∨ x.length < 3 then ⟨0, 1⟩
  else if Real.sqrt (corrProdTerm x y) = 0 then ⟨0, 1⟩
  else
    let n : ℝ := x.length
    let numerator := n * ((x.zip y).map (fun p => p.1 * p.2)).sum - x.sum * y.sum
    let r := numerator / Real.sqrt (corrProdTerm x y)
    let t := r * Real.sqrt ((n - 2) / (1 - r * r))
    ⟨r, approximatePValue |t| (n - 2)⟩

/-- The pair list built by `calculateLaggedCorrelation`'s loop
(`for i = lagDays; i < dates.length; i++` keeping indices where both
`x[i - lagDays]` and `y[i]` are defined). -/
def laggedPairs (x y : List ℝ) (dl lag : ℕ) : List (ℝ × ℝ) :=
  (List.range dl).filterMap (fun i =>
    if lag ≤ i then
      match x[i - lag]?, y[i]? with
      | some a, some b => some (a, b)
      | _, _ => none
    else none)

/-- `calculateLaggedCorrelation` (lines 55-77). -/
noncomputable def calculateLaggedCorrelation (x y : List ℝ)
    (dates : List String) (lagDays : ℕ) : CorrResult :=
  if (laggedPairs x y dates.length lagDays).length < 3 then ⟨0, 1⟩
  else
    calculateCorrelation
      ((laggedPairs x y dates.length lagDays).map Prod.fst)
      ((laggedPairs x y dates.length lagDays).map Prod.snd)

/-! ## Claim C7: the fail-soft early returns of `calculateCorrelation` -/

/-- C7: `calculateCorrelation` returns exactly `{r: 0, pValue: 1}`
whenever the lengths differ, or the common length is below 3 (hence for
every pair of length-2 inputs), or the product-of-variances term under the
square root is exactly zero. -/
theorem correlation_failsoft (x y : List ℝ)
    (h : x.length ≠ y.length ∨ x.length < 3 ∨ corrProdTerm x y = 0) :
    calculateCorrelation x y = ⟨0, 1⟩ := by
  unfold calculateCorrelation
  rcases h with h | h | h
  · rw [if_pos (Or.inl h)]
  · rw [if_pos (Or.inr h)]
  · by_cases hl : x.length ≠ y.length ∨ x.length < 3
    · rw [if_pos hl]
    · rw [if_neg hl, if_pos (by rw [h, Real.sqrt_zero])]

theorem correlation_failsoft_witness :
    (([1, 2] : List ℝ).length ≠ ([5, 9] : List ℝ).length ∨
      ([1, 2] : List ℝ).length < 3 ∨ corrProdTerm [1, 2] [5, 9] = 0) ∧
    calculateCorrelation ([1, 2] : List ℝ) [5, 9] = ⟨0, 1⟩ :=
  ⟨Or.inr (Or.inl (by decide)),
   correlation_failsoft [1, 2] [5, 9] (Or.inr (Or.inl (by decide)))⟩

/-! ## Claim C10: the p-value always lies in the unit interval -/

/-- C10: for every pair of numeric lists, the `pValue` component of
`calculateCorrelation` lies in `[0, 1]`: the early returns yield 1 and the
approximation is clamped by `min 1 (max 0 ...)`. -/
theorem pValue_in_unit_interval (x y : List ℝ) :
    0 ≤ (calculateCorrelation x y).pValue ∧
      (calculateCorrelation x y).pValue ≤ 1 := by
  unfold calculateCorrelation
  split
  · exact ⟨by norm_num, by norm_num⟩
  · split
    · exact ⟨by norm_num, by norm_num⟩
    · dsimp only
      unfold approximatePValue
      dsimp only
      exact ⟨le_min (by norm_num) (le_max_left 0 _), min_le_left 1 _⟩

/-! ## Claim C9: zero-lag correlation versus plain correlation -/

theorem getElem?_zip_pair (x y : List ℝ) (n : ℕ) :
    (x.zip y)[n]? =
      match x[n]?, y[n]? with
      | some a, some b => some (a, b)
      | _, _ => none := by
  rw [show x.zip y = List.zipWith Prod.mk x y from rfl, List.getElem?_zipWith']
  rcases x[n]? with _ | a <;> rcases y[n]? with _ | b <;> rfl

theorem laggedPairs_zero_take (x y : List ℝ) :
    ∀ dl : ℕ, laggedPairs x y dl 0 = (x.zip y).take dl := by
  intro dl
  induction dl with
  | zero => rfl
  | succ n ihn =>
    unfold laggedPairs at ihn ⊢
    rw [List.range_succ, List.filterMap_append, ihn, List.take_succ]
    congr 1
    simp only [List.filterMap_cons, List.filterMap_nil]
    rw [if_pos (Nat.zero_le n)]
    simp only [Nat.sub_zero]
    rw [getElem?_zip_pair]
    rcases x[n]? with _ | a <;> rcases y[n]? with _ | b <;> rfl

theorem laggedPairs_zero_eq_zip (x y : List ℝ) (dl : ℕ)
    (h : min x.length y.length ≤ dl) : laggedPairs x y dl 0 = x.zip y := by
  rw [laggedPairs_zero_take]
  exact List.take_of_length_le (by rw [List.length_zip]; exact h)

/-- C9 (amended): `calculateLaggedCorrelation` with `lagDays = 0` agrees
with `calculateCorrelation` on the same `x` and `y` provided the two
series have equal length and the dates sequence is at least that long; in
general the zero-lag loop runs only over `dates.length` indices, so a
short dates sequence truncates the series first (see the
counterexample). -/
theorem lagged_zero_eq_correlation (x y : List ℝ) (dates : List String)
    (hxy : x.length = y.length) (hd : x.length ≤ dates.length) :
    calculateLaggedCorrelation x y dates 0 = calculateCorrelation x y := by
  unfold calculateLaggedCorrelation
  have hmin : min x.length y.length ≤ dates.length := by
    rw [← hxy, min_self]
    exact hd
  rw [laggedPairs_zero_eq_zip x y dates.length hmin]
  have hlen : (x.zip y).length = x.length := by
    rw [List.length_zip, ← hxy, min_self]
  by_cases h3 : (x.zip y).length < 3
  · rw [if_pos h3]
    have hx3 : x.length < 3 := by rw [← hlen]; exact h3
    rw [calculateCorrelation, if_pos (Or.inr hx3)]
  · rw [if_neg h3]
    rw [List.map_fst_zip x y (le_of_eq hxy),
      List.map_snd_zip x y (le_of_eq hxy.symm)]

theorem lagged_zero_eq_correlation_witness :
    (([10, 20, 30, 40] : List ℝ).length = ([1, 2, 3, 4] : List ℝ).length ∧
     ([10, 20, 30, 40] : List ℝ).length ≤ ["a", "b", "c", "d"].length) ∧
    calculateLaggedCorrelation ([10, 20, 30, 40] : List ℝ) [1, 2, 3, 4]
      ["a", "b", "c", "d"] 0 =
      calculateCorrelation ([10, 20, 30, 40] : List ℝ) [1, 2, 3, 4] :=
  ⟨⟨by decide, by decide⟩,
   lagged_zero_eq_correlation _ _ _ (by decide) (by decide)⟩

/-- C9 (counterexample): with an empty dates sequence the zero-lag loop
never runs, so `calculateLaggedCorrelation([1,2,3], [1,2,3], [], 0)` is
the fail-soft `{r: 0, pValue: 1}`, while
`calculateCorrelation([1,2,3], [1,2,3])` has `r = 1` — the two are not
equal for all inputs. -/
theorem lagged_zero_counterexample :
    calculateLaggedCorrelation ([1, 2, 3] : List ℝ) [1, 2, 3] [] 0 = ⟨0, 1⟩ ∧
    calculateCorrelation ([1, 2, 3] : List ℝ) [1, 2, 3] ≠ ⟨0, 1⟩ := by
  constructor
  · unfold calculateLaggedCorrelation
    rw [show laggedPairs ([1, 2, 3] : List ℝ) [1, 2, 3]
      (List.length ([] : List String)) 0 = [] from rfl]
    rw [if_pos (by norm_num)]
  · intro heq
    have hprod : corrProdTerm ([1, 2, 3] : List ℝ) [1, 2, 3] = 36 := by
      unfold corrProdTerm
      norm_num
    have hsqrt : Real.sqrt (corrProdTerm ([1, 2, 3] : List ℝ) [1, 2, 3]) = 6 := by
      rw [hprod, show (36 : ℝ) = 6 ^ 2 by norm_num,
        Real.sqrt_sq (by norm_num : (0 : ℝ) ≤ 6)]
    have hr : (calculateCorrelation ([1, 2, 3] : List ℝ) [1, 2, 3]).r = 1 := by
      unfold calculateCorrelation
      rw [if_neg (by norm_num), if_neg (by rw [hsqrt]; norm_num)]
      dsimp only
      rw [hsqrt]
      norm_num
    rw [heq] at hr
    rw [CorrResult_mk_r] at hr
    exact absurd hr (by norm_num)

/-! ## `alignDataForCorrelation` (lines 80-123)

The JavaScript `Map<string, {value1?, value2?}>` is embedded as an
insertion-ordered association list whose entries hold the two optional
numeric slots; `Number(value)` is abstracted by a conversion function
`toNum`, and `localeCompare` by the lexicographic string order. -/

/-- A data point fed to the aligner: a `date` plus arbitrary further
fields (`{date: string, [key: string]: any}`). -/
structure DataPoint where
  date : String
  fields : List (String × Json)

/-- Read a field of a data point (`d[key]`); `date` is the declared
string field, everything else is looked up. -/
def dpGet (d : DataPoint) (k : String) : Option Json :=
  if k = "date" then some (.str d.date) else d.fields.lookup k

/-- `v === null`. -/
def isNullB : Json → Bool
  | .null => true
  | _ => false

/-- `value !== undefined && value !== null`. -/
def defNN : Option Json → Bool
  | none => false
  | some v => !(isNullB v)

/-- One date-map entry: the two optional numeric slots. -/
abbrev DateMap := List (String × (Option ℝ × Option ℝ))

/-- `if (!map.has(date)) map.set(date, {}); map.get(date)!.value1 = v` —
set the first slot in place, appending a fresh entry when the key is new
(JavaScript `Map`s preserve insertion order). -/
def mapSet1 : DateMap → String → ℝ → DateMap
  | [], date, v => [(date, (some v, none))]
  | (d, e) :: t, date, v =>
    if d = date then (d, (some v, e.2)) :: t else (d, e) :: mapSet1 t date v

/-- The same for the second slot. -/
def mapSet2 : DateMap → String → ℝ → DateMap
  | [], date, v => [(date, (none, some v))]
  | (d, e) :: t, date, v =>
    if d = date then (d, (e.1, some v)) :: t else (d, e) :: mapSet2 t date v

/-- The `data1.forEach` pass: record `value1` for defined, non-null
metric values. -/
def step1 (toNum : Json → ℝ) (k1 : String) (m : DateMap) (d : DataPoint) :
    DateMap :=
  match dpGet d k1 with
  | some v => if isNullB v = true then m else mapSet1 m d.date (toNum v)
  | none => m

/-- The `data2.forEach` pass: record `value2`. -/
def step2 (toNum : Json → ℝ) (k2 : String) (m : DateMap) (d : DataPoint) :
    DateMap :=
  match dpGet d k2 with
  | some v => if isNullB v = true then m else mapSet2 m d.date (toNum v)
  | none => m

/-- The date map after both passes. -/
def buildDateMap (toNum : Json → ℝ) (data1 data2 : List DataPoint)
    (k1 k2 : String) : DateMap :=
  data2.foldl (step2 toNum k2) (data1.foldl (step1 toNum k1) [])

/-- The `{x, y, dates}` triple the aligner returns. -/
structure Aligned where
  x : List ℝ
  y : List ℝ
  dates : List String

/-- The per-entry extraction of the final loop: entries with both slots
defined yield an `(x, y, date)` triple. -/
def alignedOfEntry (p : String × (Option ℝ × Option ℝ)) :
    Option (ℝ × ℝ × String) :=
  match p.2.1, p.2.2 with
  | some a, some b => some (a, b, p.1)
  | _, _ => none

/-- `alignDataForCorrelation` (lines 80-123): build the date map from
both inputs, sort the entries by date, and emit the three parallel
sequences of the dates present with defined values on both sides. -/
def alignDataForCorrelation (toNum : Json → ℝ) (data1 data2 : List DataPoint)
    (k1 k2 : String) : Aligned :=
  let sorted := (buildDateMap toNum data1 data2 k1 k2).insertionSort
    (fun p q => p.1 ≤ q.1)
  let aligned := sorted.filterMap alignedOfEntry
  ⟨aligned.map (fun z => z.1), aligned.map (fun z => z.2.1),
   aligned.map (fun z => z.2.2)⟩

theorem mem_mapSet1 {m : DateMap} {date : String} {v : ℝ}
    {p : String × (Option ℝ × Option ℝ)} (hp : p ∈ mapSet1 m date v) :
    p ∈ m ∨
    (p.1 = date ∧ p.2.1 = some v ∧ ∃ q ∈ m, q.1 = p.1 ∧ p.2.2 = q.2.2) ∨
    p = (date, (some v, none)) := by
  induction m with
  | nil =>
    rw [mapSet1] at hp
    rcases List.mem_singleton.mp hp with rfl
    exact Or.inr (Or.inr rfl)
  | cons de t ih =>
    rcases de with ⟨d, e⟩
    rw [mapSet1] at hp
    by_cases hd : d = date
    · rw [if_pos hd] at hp
      rcases List.mem_cons.mp hp with rfl | hp'
      · exact Or.inr (Or.inl ⟨hd, rfl,
          ⟨(d, e), List.mem_cons_self _ _, hd.symm ▸ rfl, rfl⟩⟩)
      · exact Or.inl (List.mem_cons_of_mem _ hp')
    · rw [if_neg hd] at hp
      rcases List.mem_cons.mp hp with rfl | hp'
      · exact Or.inl (List.mem_cons_self _ _)
      · rcases ih hp' with h | ⟨h1, h2, q, hq, hq1, hq2⟩ | h
        · exact Or.inl (List.mem_cons_of_mem _ h)
        · exact Or.inr (Or.inl ⟨h1, h2, q, List.mem_cons_of_mem _ hq, hq1, hq2⟩)
        · exact Or.inr (Or.inr h)

theorem mem_mapSet2 {m : DateMap} {date : String} {v : ℝ}
    {p : String × (Option ℝ × Option ℝ)} (hp : p ∈ mapSet2 m date v) :
    p ∈ m ∨
    (p.1 = date ∧ p.2.2 = some v ∧ ∃ q ∈ m, q.1 = p.1 ∧ p.2.1 = q.2.1) ∨
    p = (date, (none, some v)) := by
  induction m with
  | nil =>
    rw [mapSet2] at hp
    rcases List.mem_singleton.mp hp with rfl
    exact Or.inr (Or.inr rfl)
  | cons de t ih =>
    rcases de with ⟨d, e⟩
    rw [mapSet2] at hp
    by_cases hd : d = date
    · rw [if_pos hd] at hp
      rcases List.mem_cons.mp hp with rfl | hp'
      · exact Or.inr (Or.inl ⟨hd, rfl,
          ⟨(d, e), List.mem_cons_self _ _, hd.symm ▸ rfl, rfl⟩⟩)
      · exact Or.inl (List.mem_cons_of_mem _ hp')
    · rw [if_neg hd] at hp
      rcases List.mem_cons.mp hp with rfl | hp'
      · exact Or.inl (List.mem_cons_self _ _)
      · rcases ih hp' with h | ⟨h1, h2, q, hq, hq1, hq2⟩ | h
        · exact Or.inl (List.mem_cons_of_mem _ h)
        · exact Or.inr (Or.inl ⟨h1, h2, q, List.mem_cons_of_mem _ hq, hq1, hq2⟩)
        · exact Or.inr (Or.inr h)

theorem keys_mapSet1 (m : DateMap) (date : String) (v : ℝ) :
    (mapSet1 m date v).map Prod.fst =
      if date ∈ m.map Prod.fst then m.map Prod.fst
      else m.map Prod.fst ++ [date] := by
  induction m with
  | nil => simp [mapSet1]
  | cons de t ih =>
    rcases de with ⟨d, e⟩
    rw [mapSet1]
    by_cases hd : d = date
    · rw [if_pos hd]
      have : date ∈ (( (d, e) :: t).map Prod.fst) := by
        rw [List.map_cons]
        exact hd ▸ List.mem_cons_self d _
      rw [if_pos this]
      simp
    · rw [if_neg hd]
      rw [List.map_cons, List.map_cons, ih]
      by_cases hmem : date ∈ t.map Prod.fst
      · rw [if_pos hmem, if_pos (List.mem_cons_of_mem d hmem)]
      · rw [if_neg hmem, if_neg ?h]
        · rfl
        case h =>
          intro hc
          rcases List.mem_cons.mp hc with hc1 | hc2
          · exact hd hc1.symm
          · exact hmem hc2

theorem keys_mapSet2 (m : DateMap) (date : String) (v : ℝ) :
    (mapSet2 m date v).map Prod.fst =
      if date ∈ m.map Prod.fst then m.map Prod.fst
      else m.map Prod.fst ++ [date] := by
  induction m with
  | nil => simp [mapSet2]
  | cons de t ih =>
    rcases de with ⟨d, e⟩
    rw [mapSet2]
    by_cases hd : d = date
    · rw [if_pos hd]
      have : date ∈ (( (d, e) :: t).map Prod.fst) := by
        rw [List.map_cons]
        exact hd ▸ List.mem_cons_self d _
      rw [if_pos this]
      simp
    · rw [if_neg hd]
      rw [List.map_cons, List.map_cons, ih]
      by_cases hmem : date ∈ t.map Prod.fst
      · rw [if_pos hmem, if_pos (List.mem_cons_of_mem d hmem)]
      · rw [if_neg hmem, if_neg ?h]
        · rfl
        case h =>
          intro hc
          rcases List.mem_cons.mp hc with hc1 | hc2
          · exact hd hc1.symm
          · exact hmem hc2

theorem nodup_keys_mapSet1 {m : DateMap} (h : (m.map Prod.fst).Nodup)
    (date : String) (v : ℝ) : ((mapSet1 m date v).map Prod.fst).Nodup := by
  rw [keys_mapSet1]
  by_cases hmem : date ∈ m.map Prod.fst
  · rw [if_pos hmem]; exact h
  · rw [if_neg hmem]
    rw [List.nodup_append]
    exact ⟨h, List.nodup_singleton date,
      fun a ha hb => hmem ((List.mem_singleton.mp hb) ▸ ha)⟩

theorem nodup_keys_mapSet2 {m : DateMap} (h : (m.map Prod.fst).Nodup)
    (date : String) (v : ℝ) : ((mapSet2 m date v).map Prod.fst).Nodup := by
  rw [keys_mapSet2]
  by_cases hmem : date ∈ m.map Prod.fst
  · rw [if_pos hmem]; exact h
  · rw [if_neg hmem]
    rw [List.nodup_append]
    exact ⟨h, List.nodup_singleton date,
      fun a ha hb => hmem ((List.mem_singleton.mp hb) ▸ ha)⟩

theorem nodup_keys_fold1 (toNum : Json → ℝ) (k1 : String) :
    ∀ (l : List DataPoint) (m : DateMap), (m.map Prod.fst).Nodup →
      (((l.foldl (step1 toNum k1) m)).map Prod.fst).Nodup := by
  intro l
  induction l with
  | nil => intro m hm; exact hm
  | cons d t ih =>
    intro m hm
    rw [List.foldl_cons]
    refine ih _ ?_
    unfold step1
    split
    · split
      · exact hm
      · exact nodup_keys_mapSet1 hm _ _
    · exact hm

theorem nodup_keys_fold2 (toNum : Json → ℝ) (k2 : String) :
    ∀ (l : List DataPoint) (m : DateMap), (m.map Prod.fst).Nodup →
      (((l.foldl (step2 toNum k2) m)).map Prod.fst).Nodup := by
  intro l
  induction l with
  | nil => intro m hm; exact hm
  | cons d t ih =>
    intro m hm
    rw [List.foldl_cons]
    refine ih _ ?_
    unfold step2
    split
    · split
      · exact hm
      · exact nodup_keys_mapSet2 hm _ _
    · exact hm

theorem nodup_keys_buildDateMap (toNum : Json → ℝ) (data1 data2 : List DataPoint)
    (k1 k2 : String) :
    ((buildDateMap toNum data1 data2 k1 k2).map Prod.fst).Nodup := by
  unfold buildDateMap
  exact nodup_keys_fold2 toNum k2 data2 _
    (nodup_keys_fold1 toNum k1 data1 [] (by simp))

theorem fold1_value2_none (toNum : Json → ℝ) (k1 : String) :
    ∀ (l : List DataPoint) (m : DateMap),
      (∀ p ∈ m, p.2.2 = none) →
      ∀ p ∈ l.foldl (step1 toNum k1) m, p.2.2 = none := by
  intro l
  induction l with
  | nil => intro m hm p hp; exact hm p hp
  | cons d t ih =>
    intro m hm p hp
    rw [List.foldl_cons] at hp
    refine ih _ ?_ p hp
    intro q hq
    unfold step1 at hq
    split at hq
    · split at hq
      · exact hm q hq
      · rcases mem_mapSet1 hq with h | ⟨_, _, q', hq', _, h22⟩ | h
        · exact hm q h
        · rw [h22]; exact hm q' hq'
        · rw [h]
    · exact hm q hq

theorem fold1_value1_src (toNum : Json → ℝ) (k1 : String) :
    ∀ (l : List DataPoint) (m : DateMap) (p : String × (Option ℝ × Option ℝ)),
      p ∈ l.foldl (step1 toNum k1) m → (p.2.1).isSome = true →
      (∃ d ∈ l, d.date = p.1 ∧ defNN (dpGet d k1) = true) ∨
      (∃ q ∈ m, q.1 = p.1 ∧ q.2.1 = p.2.1) := by
  intro l
  induction l with
  | nil =>
    intro m p hp hs
    exact Or.inr ⟨p, hp, rfl, rfl⟩
  | cons d t ih =>
    intro m p hp hs
    rw [List.foldl_cons] at hp
    rcases ih _ p hp hs with ⟨d', hd', h⟩ | ⟨q, hq, hq1, hq2⟩
    · exact Or.inl ⟨d', List.mem_cons_of_mem d hd', h⟩
    · unfold step1 at hq
      split at hq
      · rename_i v hv
        split at hq
        · exact Or.inr ⟨q, hq, hq1, hq2⟩
        · rename_i hnull
          rcases mem_mapSet1 hq with h | ⟨h1, h2, q', hq', hq1', h22⟩ | h
          · exact Or.inr ⟨q, h, hq1, hq2⟩
          · refine Or.inl ⟨d, List.mem_cons_self d t, by rw [← hq1, h1], ?_⟩
            rw [hv, defNN]
            simp only [Bool.not_eq_true] at hnull
            rw [hnull]
            rfl
          · refine Or.inl ⟨d, List.mem_cons_self d t, ?_, ?_⟩
            · rw [← hq1, h]
            · rw [hv, defNN]
              simp only [Bool.not_eq_true] at hnull
              rw [hnull]
              rfl
      · exact Or.inr ⟨q, hq, hq1, hq2⟩

theorem fold2_value1_pres (toNum : Json → ℝ) (k2 : String) :
    ∀ (l : List DataPoint) (m : DateMap) (p : String × (Option ℝ × Option ℝ)),
      p ∈ l.foldl (step2 toNum k2) m → (p.2.1).isSome = true →
      ∃ q ∈ m, q.1 = p.1 ∧ q.2.1 = p.2.1 := by
  intro l
  induction l with
  | nil =>
    intro m p hp hs
    exact ⟨p, hp, rfl, rfl⟩
  | cons d t ih =>
    intro m p hp hs
    rw [List.foldl_cons] at hp
    rcases ih _ p hp hs with ⟨q, hq, hq1, hq2⟩
    unfold step2 at hq
    split at hq
    · split at hq
      · exact ⟨q, hq, hq1, hq2⟩
      · rcases mem_mapSet2 hq with h | ⟨h1, h2, q', hq', hq1', h21⟩ | h
        · exact ⟨q, h, hq1, hq2⟩
        · exact ⟨q', hq', by rw [hq1', hq1], by rw [← h21, hq2]⟩
        · rw [h] at hq2
          rw [← hq2] at hs
          exact absurd hs (by simp)
    · exact ⟨q, hq, hq1, hq2⟩

theorem fold2_value2_src (toNum : Json → ℝ) (k2 : String) :
    ∀ (l : List DataPoint) (m : DateMap) (p : String × (Option ℝ × Option ℝ)),
      p ∈ l.foldl (step2 toNum k2) m → (p.2.2).isSome = true →
      (∃ d ∈ l, d.date = p.1 ∧ defNN (dpGet d k2) = true) ∨
      (∃ q ∈ m, q.1 = p.1 ∧ q.2.2 = p.2.2) := by
  intro l
  induction l with
  | nil =>
    intro m p hp hs
    exact Or.inr ⟨p, hp, rfl, rfl⟩
  | cons d t ih =>
    intro m p hp hs
    rw [List.foldl_cons] at hp
    rcases ih _ p hp hs with ⟨d', hd', h⟩ | ⟨q, hq, hq1, hq2⟩
    · exact Or.inl ⟨d', List.mem_cons_of_mem d hd', h⟩
    · unfold step2 at hq
      split at hq
      · rename_i v hv
        split at hq
        · exact Or.inr ⟨q, hq, hq1, hq2⟩
        · rename_i hnull
          rcases mem_mapSet2 hq with h | ⟨h1, h2, q', hq', hq1', h21⟩ | h
          · exact Or.inr ⟨q, h, hq1, hq2⟩
          · refine Or.inl ⟨d, List.mem_cons_self d t, by rw [← hq1, h1], ?_⟩
            rw [hv, defNN]
            simp only [Bool.not_eq_true] at hnull
            rw [hnull]
            rfl
          · refine Or.inl ⟨d, List.mem_cons_self d t, ?_, ?_⟩
            · rw [← hq1, h]
            · rw [hv, defNN]
              simp only [Bool.not_eq_true] at hnull
              rw [hnull]
              rfl
      · exact Or.inr ⟨q, hq, hq1, hq2⟩

theorem alignedOfEntry_eq_some {p : String × (Option ℝ × Option ℝ)}
    {z : ℝ × ℝ × String} (h : alignedOfEntry p = some z) :
    p.2.1 = some z.1 ∧ p.2.2 = some z.2.1 ∧ z.2.2 = p.1 := by
  unfold alignedOfEntry at h
  split at h
  · rename_i a b ha hb
    rw [Option.some.injEq] at h
    rw [← h]
    exact ⟨ha, hb, rfl⟩
  · exact absurd h (by simp)

theorem sorted_map_pairwise_lt (toNum : Json → ℝ)
    (data1 data2 : List DataPoint) (k1 k2 : String) :
    ((buildDateMap toNum data1 data2 k1 k2).insertionSort
      (fun p q => p.1 ≤ q.1)).Pairwise
        (fun p q : String × (Option ℝ × Option ℝ) => p.1 < q.1) := by
  haveI : IsTotal (String × (Option ℝ × Option ℝ)) (fun p q => p.1 ≤ q.1) :=
    ⟨fun a b => le_total a.1 b.1⟩
  haveI : IsTrans (String × (Option ℝ × Option ℝ)) (fun p q => p.1 ≤ q.1) :=
    ⟨fun a b c => le_trans⟩
  have hsorted := List.sorted_insertionSort
    (fun p q : String × (Option ℝ × Option ℝ) => p.1 ≤ q.1)
    (buildDateMap toNum data1 data2 k1 k2)
  have hperm := List.perm_insertionSort
    (fun p q : String × (Option ℝ × Option ℝ) => p.1 ≤ q.1)
    (buildDateMap toNum data1 data2 k1 k2)
  have hnd : (((buildDateMap toNum data1 data2 k1 k2).insertionSort
      (fun p q => p.1 ≤ q.1)).map Prod.fst).Nodup :=
    ((hperm.map Prod.fst).nodup_iff).mpr
      (nodup_keys_buildDateMap toNum data1 data2 k1 k2)
  have hne := (List.pairwise_map).mp hnd
  exact (List.Pairwise.and hsorted hne).imp
    (fun hh => lt_of_le_of_ne hh.1 hh.2)

/-- C8: `alignDataForCorrelation` returns three sequences of equal length;
the dates are strictly ascending in lexicographic order with no
duplicates; and every returned date had a defined, non-null value under
its metric key in both input series. -/
theorem align_parallel_sorted_defined (toNum : Json → ℝ)
    (data1 data2 : List DataPoint) (k1 k2 : String) :
    ((alignDataForCorrelation toNum data1 data2 k1 k2).x.length =
       (alignDataForCorrelation toNum data1 data2 k1 k2).dates.length ∧
     (alignDataForCorrelation toNum data1 data2 k1 k2).y.length =
       (alignDataForCorrelation toNum data1 data2 k1 k2).dates.length) ∧
    (alignDataForCorrelation toNum data1 data2 k1 k2).dates.Pairwise (· < ·) ∧
    (∀ date ∈ (alignDataForCorrelation toNum data1 data2 k1 k2).dates,
      (∃ d ∈ data1, d.date = date ∧ defNN (dpGet d k1) = true) ∧
      (∃ d ∈ data2, d.date = date ∧ defNN (dpGet d k2) = true)) := by
  refine ⟨⟨?_, ?_⟩, ?_, ?_⟩
  · unfold alignDataForCorrelation
    dsimp only
    rw [List.length_map, List.length_map]
  · unfold alignDataForCorrelation
    dsimp only
    rw [List.length_map, List.length_map]
  · unfold alignDataForCorrelation
    dsimp only
    rw [List.pairwise_map, List.pairwise_filterMap]
    refine (sorted_map_pairwise_lt toNum data1 data2 k1 k2).imp ?_
    intro p q hpq z hz w hw
    rw [(alignedOfEntry_eq_some (Option.mem_def.mp hz)).2.2,
      (alignedOfEntry_eq_some (Option.mem_def.mp hw)).2.2]
    exact hpq
  · intro date hdate
    unfold alignDataForCorrelation at hdate
    dsimp only at hdate
    rcases List.mem_map.mp hdate with ⟨z, hz, hzd⟩
    rcases List.mem_filterMap.mp hz with ⟨p, hp, hpz⟩
    have hpfacts := alignedOfEntry_eq_some hpz
    have hpmem : p ∈ buildDateMap toNum data1 data2 k1 k2 :=
      (List.mem_insertionSort _).mp hp
    have hpdate : p.1 = date := by rw [← hzd, hpfacts.2.2]
    unfold buildDateMap at hpmem
    constructor
    · have hs1 : (p.2.1).isSome = true := by rw [hpfacts.1]; rfl
      rcases fold2_value1_pres toNum k2 data2 _ p hpmem hs1 with ⟨q, hq, hq1, hq2⟩
      have hqs : (q.2.1).isSome = true := by rw [hq2]; exact hs1
      rcases fold1_value1_src toNum k1 data1 [] q hq hqs with
        ⟨d, hd, hdd, hdef⟩ | ⟨q', hq', _, _⟩
      · exact ⟨d, hd, by rw [hdd, hq1, hpdate], hdef⟩
      · exact absurd hq' (List.not_mem_nil q')
    · have hs2 : (p.2.2).isSome = true := by rw [hpfacts.2.1]; rfl
      rcases fold2_value2_src toNum k2 data2 _ p hpmem hs2 with
        ⟨d, hd, hdd, hdef⟩ | ⟨q, hq, hq1, hq2⟩
      · exact ⟨d, hd, by rw [hdd, hpdate], hdef⟩
      · have hqnone : q.2.2 = none :=
          fold1_value2_none toNum k1 data1 []
            (fun r hr => absurd hr (List.not_mem_nil r)) q hq
        rw [hqnone] at hq2
        rw [← hq2] at hs2
        exact absurd hs2 (by simp)

theorem align_parallel_sorted_defined_witness :
    "2024-01-01" ∈ (alignDataForCorrelation (fun _ => (0 : ℝ))
      [⟨"2024-01-01", [("steps", Json.num 5)]⟩]
      [⟨"2024-01-01", [("rhr", Json.num 6)]⟩] "steps" "rhr").dates ∧
    ((∃ d ∈ [DataPoint.mk "2024-01-01" [("steps", Json.num 5)]],
        d.date = "2024-01-01" ∧ defNN (dpGet d "steps") = true) ∧
     (∃ d ∈ [DataPoint.mk "2024-01-01" [("rhr", Json.num 6)]],
        d.date = "2024-01-01" ∧ defNN (dpGet d "rhr") = true)) := by
  have hmem : "2024-01-01" ∈ (alignDataForCorrelation (fun _ => (0 : ℝ))
      [⟨"2024-01-01", [("steps", Json.num 5)]⟩]
      [⟨"2024-01-01", [("rhr", Json.num 6)]⟩] "steps" "rhr").dates := by
    show "2024-01-01" ∈ ["2024-01-01"]
    exact List.mem_singleton.mpr rfl
  exact ⟨hmem,
    (align_parallel_sorted_defined (fun _ => (0 : ℝ))
      [⟨"2024-01-01", [("steps", Json.num 5)]⟩]
      [⟨"2024-01-01", [("rhr", Json.num 6)]⟩] "steps" "rhr").2.2
      "2024-01-01" hmem⟩
